import Mathlib

set_option linter.unusedVariables false

/-!
Shallow embedding of the dependency checker (`src/pip4a/checker.py`) and the
uninstaller (`src/pip4a/uninstaller.py`) of the pip4a project.

The checker's constraint test delegates to the `packaging` library
(`packaging.version.Version`, `packaging.specifiers.SpecifierSet`), whose
PEP 440 semantics are embedded below: version parsing, the `_cmpkey`
ordering, specifier parsing and the `contains` logic including its
pre-release gate.  Logging calls (`logger.debug/...`, `hint`, `note`) are
embedded as a list of emitted `LogEvent`s; an uncaught Python exception is
an `Except.error` value.
-/

/-- A leveled log message or a user-facing hint/note, as emitted through
`logging` and the `hint`/`note` helpers of `utils.py`. -/
inductive LogEvent where
  | debug (msg : String)
  | info (msg : String)
  | warning (msg : String)
  | critical (msg : String)
  | hintMsg (msg : String)
  | noteMsg (msg : String)
deriving DecidableEq, Repr

/-! ## PEP 440 versions (`packaging.version.Version`) -/

/-- Pre-release phase of a PEP 440 version: `a` (alpha), `b` (beta), `rc`
(release candidate; `c`, `pre`, `preview` normalize to it). -/
inductive PrePhase where
  | a
  | b
  | rc
deriving DecidableEq, Repr

/-- One segment of a PEP 440 local version label: numeric segments compare
numerically and above string segments, string segments compare
lexicographically. -/
inductive LocalSeg where
  | num (n : Nat)
  | str (s : String)
deriving DecidableEq, Repr

/-- A parsed PEP 440 version (`packaging.version.Version`): epoch, release
segments, optional pre/post/dev suffixes and local version segments
(`localSegs = []` means no local version, which PEP 440 cannot distinguish
from an empty one since local labels are non-empty). -/
structure PyVersion where
  epoch : Nat
  release : List Nat
  pre : Option (PrePhase × Nat)
  post : Option Nat
  dev : Option Nat
  localSegs : List LocalSeg
deriving DecidableEq, Repr

/-- Mirrors `Version.is_prerelease`: true when a dev or pre segment is
present. -/
def PyVersion.isPrerelease (v : PyVersion) : Bool :=
  v.dev.isSome || v.pre.isSome

/-- Mirrors `Version.is_postrelease`. -/
def PyVersion.isPostrelease (v : PyVersion) : Bool :=
  v.post.isSome

/-- Mirrors `Version.public`: the version without its local segments. -/
def stripLocal (v : PyVersion) : PyVersion :=
  { v with localSegs := [] }

/-- Mirrors `Version.base_version`: epoch and release only. -/
def baseVersion (v : PyVersion) : PyVersion :=
  { epoch := v.epoch, release := v.release, pre := none, post := none,
    dev := none, localSegs := [] }

/-! ### Parsing (the `VERSION_PATTERN` regex, normalized and lowercased) -/

/-- Numeric value of a digit string. -/
def digitsToNat (cs : List Char) : Nat :=
  cs.foldl (fun a c => a * 10 + (c.toNat - 48)) 0

/-- Parse a non-empty run of ASCII digits. -/
def pDigits (cs : List Char) : Option (Nat × List Char) :=
  let ds := cs.takeWhile Char.isDigit
  if ds.isEmpty then none else some (digitsToNat ds, cs.drop ds.length)

/-- A PEP 440 separator character (`[-_.]`). -/
def isSepChar (c : Char) : Bool :=
  c == '-' || c == '_' || c == '.'

/-- Consume one optional separator (the regex `[-_.]?`). -/
def dropSep (cs : List Char) : List Char :=
  match cs with
  | c :: r => if isSepChar c then r else cs
  | [] => []

/-- Match one of the given literal words as an exact character sequence. -/
def startsWithChars : List Char → List Char → Option (List Char)
  | [], cs => some cs
  | _, [] => none
  | w :: ws, c :: cs => if w == c then startsWithChars ws cs else none

/-- Try each word in order (words are listed longest-first so the greedy
match coincides with the regex's backtracking alternation). -/
def matchWord {α : Type} : List (String × α) → List Char → Option (α × List Char)
  | [], _ => none
  | (w, v) :: rest, cs =>
    match startsWithChars w.data cs with
    | some rem => some (v, rem)
    | none => matchWord rest cs

/-- The remaining `.N` release segments (regex `(?:\.[0-9]+)*`), fueled for
structural recursion. -/
def pReleaseRest : Nat → List Char → (List Nat × List Char)
  | 0, cs => ([], cs)
  | fuel + 1, cs =>
    match cs with
    | '.' :: rest =>
      match pDigits rest with
      | some (n, rem) =>
        let (more, rem2) := pReleaseRest fuel rem
        (n :: more, rem2)
      | none => ([], cs)
    | _ => ([], cs)

/-- Parse a tag of the form `[-_.]? word [-_.]? digits?` (the pre, post-word
and dev groups of `VERSION_PATTERN`); a missing number normalizes to 0. -/
def pTag {α : Type} (words : List (String × α)) (cs : List Char) :
    Option (α × Nat × List Char) :=
  match matchWord words (dropSep cs) with
  | none => none
  | some (v, rem) =>
    let rem2 := dropSep rem
    match pDigits rem2 with
    | some (n, rem3) => some (v, n, rem3)
    | none => some (v, 0, rem2)

/-- Pre-release spellings, longest first, with their normalization. -/
def preWords : List (String × PrePhase) :=
  [("preview", PrePhase.rc), ("alpha", PrePhase.a), ("beta", PrePhase.b),
   ("pre", PrePhase.rc), ("rc", PrePhase.rc),
   ("a", PrePhase.a), ("b", PrePhase.b), ("c", PrePhase.rc)]

/-- Post-release: either the implicit `-N` form or a
`[-_.]?(post|rev|r)[-_.]?N?` tag. -/
def pPost (cs : List Char) : Option (Nat × List Char) :=
  let tagForm :=
    match pTag [("post", ()), ("rev", ()), ("r", ())] cs with
    | some (_, n, r) => some (n, r)
    | none => none
  match cs with
  | '-' :: rest =>
    match pDigits rest with
    | some (n, rem) => some (n, rem)
    | none => tagForm
  | _ => tagForm

/-- A character allowed inside a (lowercased) local version segment. -/
def isLocalAlnum (c : Char) : Bool :=
  c.isDigit || ('a' ≤ c && c ≤ 'z')

/-- Parse `alnum+ ([-_.] alnum+)*` local segments, fueled. -/
def pLocalSegs : Nat → List Char → (List LocalSeg × List Char)
  | 0, cs => ([], cs)
  | fuel + 1, cs =>
    let seg := cs.takeWhile isLocalAlnum
    if seg.isEmpty then ([], cs)
    else
      let rem := cs.drop seg.length
      let this :=
        if seg.all Char.isDigit then LocalSeg.num (digitsToNat seg)
        else LocalSeg.str ⟨seg⟩
      match rem with
      | c :: r2 =>
        if isSepChar c then
          let (more, rem2) := pLocalSegs fuel r2
          match more with
          | [] => ([this], rem)
          | _ => (this :: more, rem2)
        else ([this], rem)
      | [] => ([this], [])

/-- Parse the `+local` part; if no `+` is present nothing is consumed. -/
def pLocal (cs : List Char) : List LocalSeg × List Char :=
  match cs with
  | '+' :: r =>
    let (segs, rem) := pLocalSegs (r.length + 1) r
    match segs with
    | [] => ([], cs)
    | _ => (segs, rem)
  | _ => ([], cs)

/-- Mirrors `packaging.version.Version.__init__`: parse a PEP 440 version
string (whitespace-stripped, lowercased, optional `v` prefix, epoch,
release, pre/post/dev, local), returning `none` exactly when the
constructor would raise `InvalidVersion`. -/
def parseVersion (s : String) : Option PyVersion :=
  let cs0 := (s.data.map Char.toLower).dropWhile Char.isWhitespace
  let cs1 := (cs0.reverse.dropWhile Char.isWhitespace).reverse
  let cs2 := match cs1 with
    | 'v' :: r => r
    | _ => cs1
  let (epoch, cs3) := match pDigits cs2 with
    | some (n, '!' :: r) => (n, r)
    | _ => (0, cs2)
  match pDigits cs3 with
  | none => none
  | some (r0, cs4) =>
    let (rs, cs5) := pReleaseRest cs4.length cs4
    let (pre, cs6) := match pTag preWords cs5 with
      | some (ph, n, r) => (some (ph, n), r)
      | none => (none, cs5)
    let (post, cs7) := match pPost cs6 with
      | some (n, r) => (some n, r)
      | none => (none, cs6)
    let (dev, cs8) := match pTag [("dev", ())] cs7 with
      | some (_, n, r) => (some n, r)
      | none => (none, cs7)
    let (locs, cs9) := pLocal cs8
    if cs9.isEmpty then
      some { epoch := epoch, release := r0 :: rs, pre := pre, post := post,
             dev := dev, localSegs := locs }
    else none

/-! ### Ordering (the `_cmpkey` of `packaging.version`) -/

/-- Lexicographic comparison of lists, shorter prefix first (Python tuple
comparison). -/
def cmpList {α : Type} (f : α → α → Ordering) : List α → List α → Ordering
  | [], [] => Ordering.eq
  | [], _ :: _ => Ordering.lt
  | _ :: _, [] => Ordering.gt
  | a :: as, b :: bs => (f a b).then (cmpList f as bs)

/-- Release segments with trailing zeros removed, as `_cmpkey` does. -/
def trimZeros (l : List Nat) : List Nat :=
  (l.reverse.dropWhile (fun n => n == 0)).reverse

/-- Rank of a pre-release phase (`a < b < rc`). -/
def phaseRank : PrePhase → Nat
  | PrePhase.a => 0
  | PrePhase.b => 1
  | PrePhase.rc => 2

/-- The pre-release sort key: `(0,_,_)` is `NegativeInfinity` (a dev release
with no pre/post sorts before everything), `(2,_,_)` is `Infinity`. -/
def preKey (v : PyVersion) : Nat × Nat × Nat :=
  match v.pre with
  | some (ph, n) => (1, phaseRank ph, n)
  | none => if v.post.isNone && v.dev.isSome then (0, 0, 0) else (2, 0, 0)

/-- Post key: absent sorts first. -/
def postKey (v : PyVersion) : Nat × Nat :=
  match v.post with
  | none => (0, 0)
  | some n => (1, n)

/-- Dev key: absent sorts last (`Infinity`). -/
def devKey (v : PyVersion) : Nat × Nat :=
  match v.dev with
  | none => (1, 0)
  | some n => (0, n)

/-- Compare two pair keys lexicographically. -/
def cmpKey2 (a b : Nat × Nat) : Ordering :=
  (compare a.1 b.1).then (compare a.2 b.2)

/-- Compare two triple keys lexicographically. -/
def cmpKey3 (a b : Nat × Nat × Nat) : Ordering :=
  (compare a.1 b.1).then ((compare a.2.1 b.2.1).then (compare a.2.2 b.2.2))

/-- Compare local segments: numeric above string, numerics numerically,
strings lexicographically. -/
def cmpLocalSeg : LocalSeg → LocalSeg → Ordering
  | LocalSeg.num a, LocalSeg.num b => compare a b
  | LocalSeg.num _, LocalSeg.str _ => Ordering.gt
  | LocalSeg.str _, LocalSeg.num _ => Ordering.lt
  | LocalSeg.str a, LocalSeg.str b => compare a b

/-- The total PEP 440 ordering of `packaging.version` (`_cmpkey`): epoch,
zero-trimmed release, pre key, post key, dev key, local segments (absent
local, the empty list, sorts first). -/
def cmpVersion (v w : PyVersion) : Ordering :=
  (compare v.epoch w.epoch).then
    ((cmpList compare (trimZeros v.release) (trimZeros w.release)).then
      ((cmpKey3 (preKey v) (preKey w)).then
        ((cmpKey2 (postKey v) (postKey w)).then
          ((cmpKey2 (devKey v) (devKey w)).then
            (cmpList cmpLocalSeg v.localSegs w.localSegs)))))

/-- Version equality under the PEP 440 ordering. -/
def vEq (v w : PyVersion) : Bool := cmpVersion v w == Ordering.eq

/-- Strictly less under the PEP 440 ordering. -/
def vLt (v w : PyVersion) : Bool := cmpVersion v w == Ordering.lt

/-- Strictly greater under the PEP 440 ordering. -/
def vGt (v w : PyVersion) : Bool := cmpVersion v w == Ordering.gt

/-! ## PEP 440 specifiers (`packaging.specifiers`) -/

/-- A comparison operator of a version specifier clause. -/
inductive SpecOp where
  | compatible
  | eq
  | ne
  | le
  | ge
  | lt
  | gt
  | arbitrary
deriving DecidableEq, Repr

/-- One specifier clause, kept as operator plus raw version text exactly as
`packaging.specifiers.Specifier` stores `self._spec`. -/
structure Specifier where
  op : SpecOp
  raw : String
deriving DecidableEq, Repr

/-- Lowercase a string (Python `str.lower` restricted to ASCII, which is all
PEP 440 version text contains). -/
def strLower (s : String) : String :=
  ⟨s.data.map Char.toLower⟩

/-- Does the raw version text end in the `.* ` wildcard? -/
def endsWithStar (s : String) : Bool :=
  match s.data.reverse with
  | '*' :: '.' :: _ => true
  | _ => false

/-- The raw version text with a trailing `.* ` removed. -/
def dropStar (s : String) : String :=
  ⟨(s.data.reverse.drop 2).reverse⟩

/-- A version usable before a `.* ` wildcard: optional `v`, optional epoch
and a plain release segment, nothing else (the wildcard alternative of the
`Specifier` regex). -/
def validWildcardBase (s : String) : Bool :=
  match parseVersion s with
  | some v => v.pre.isNone && v.post.isNone && v.dev.isNone && v.localSegs.isEmpty
  | none => false

/-- The version-text grammar each operator admits, as enforced by the
`Specifier._regex` alternation: `===` takes arbitrary non-space text,
`==`/`!=` admit local versions and the `.* ` wildcard, `~=` needs at least
two release segments and no local, the ordered comparisons exclude local
versions. -/
def validVersionFor (op : SpecOp) (t : String) : Bool :=
  match op with
  | SpecOp.arbitrary => t.data.all (fun c => !(c.isWhitespace || c == ';' || c == ')'))
  | SpecOp.eq | SpecOp.ne =>
    if endsWithStar t then validWildcardBase (dropStar t)
    else (parseVersion t).isSome
  | SpecOp.compatible =>
    match parseVersion t with
    | some v => decide (2 ≤ v.release.length) && v.localSegs.isEmpty && !endsWithStar t
    | none => false
  | SpecOp.le | SpecOp.ge | SpecOp.lt | SpecOp.gt =>
    match parseVersion t with
    | some v => v.localSegs.isEmpty
    | none => false

/-- Operator spellings, longest first (`===` before `==`). -/
def opWords : List (String × SpecOp) :=
  [("===", SpecOp.arbitrary), ("==", SpecOp.eq), ("~=", SpecOp.compatible),
   ("!=", SpecOp.ne), ("<=", SpecOp.le), (">=", SpecOp.ge),
   ("<", SpecOp.lt), (">", SpecOp.gt)]

/-- Strip ASCII whitespace from both ends of a character list. -/
def trimChars (cs : List Char) : List Char :=
  ((cs.dropWhile Char.isWhitespace).reverse.dropWhile Char.isWhitespace).reverse

/-- Mirrors `packaging.specifiers.Specifier.__init__`: split off the
operator, validate the version text for it; `none` exactly when the
constructor would raise `InvalidSpecifier`. -/
def parseSpecifier (s : String) : Option Specifier :=
  let cs := trimChars s.data
  match matchWord opWords cs with
  | none => none
  | some (op, rest) =>
    let t : String := ⟨trimChars rest⟩
    if validVersionFor op t then some { op := op, raw := t } else none

/-- Mirrors `SpecifierSet.__init__`: split on commas, strip, drop empty
parts, parse each clause; `none` when any clause is invalid. -/
def splitCommas : Nat → List Char → List (List Char)
  | 0, cs => [cs]
  | fuel + 1, cs =>
    match cs.dropWhile (fun c => !(c == ',')) with
    | _ :: _ =>
      let before := cs.takeWhile (fun c => !(c == ','))
      let after := (cs.dropWhile (fun c => !(c == ','))).drop 1
      before :: splitCommas fuel after
    | [] => [cs]

/-- Parse a full specifier set string. -/
def parseSpecifierSet (s : String) : Option (List Specifier) :=
  let parts := (splitCommas s.data.length s.data).map (fun p => (⟨trimChars p⟩ : String))
  (parts.filter (fun p => !(p == ""))).mapM parseSpecifier

/-- Render a version in the canonical form of `Version.__str__`. -/
def verToString (v : PyVersion) : String :=
  (if v.epoch == 0 then "" else toString v.epoch ++ "!") ++
  String.intercalate "." (v.release.map toString) ++
  (match v.pre with
   | some (PrePhase.a, n) => "a" ++ toString n
   | some (PrePhase.b, n) => "b" ++ toString n
   | some (PrePhase.rc, n) => "rc" ++ toString n
   | none => "") ++
  (match v.post with
   | some n => ".post" ++ toString n
   | none => "") ++
  (match v.dev with
   | some n => ".dev" ++ toString n
   | none => "") ++
  (match v.localSegs with
   | [] => ""
   | segs => "+" ++ String.intercalate "."
       (segs.map (fun seg => match seg with
         | LocalSeg.num n => toString n
         | LocalSeg.str t => t)))

/-- PEP 440 prefix matching on the release segment (`==X.Y.*` and the
prefix half of `~=`): equal epochs and an equal zero-padded release prefix
of the spec's length, local segments of the candidate ignored. -/
def relMatch (ep : Nat) (rel : List Nat) (p : PyVersion) : Bool :=
  p.epoch == ep && ((p.release ++ List.replicate rel.length 0).take rel.length == rel)

/-- The `==` operator (`Specifier._compare_equal`): wildcard specs do a
release-prefix match, plain specs compare under the PEP 440 ordering with
the candidate's local segments stripped unless the spec itself has some. -/
def eqContains (raw : String) (p : PyVersion) : Bool :=
  if endsWithStar raw then
    match parseVersion (dropStar raw) with
    | some sv => relMatch sv.epoch sv.release p
    | none => false
  else
    match parseVersion raw with
    | some sv =>
      let p' := if sv.localSegs.isEmpty then stripLocal p else p
      vEq p' sv
    | none => false

/-- Evaluate one specifier clause against a version, mirroring the
`_compare_*` operator callables of `packaging.specifiers.Specifier`. -/
def specOpContains (s : Specifier) (p : PyVersion) : Bool :=
  match s.op with
  | SpecOp.arbitrary => strLower (verToString p) == strLower s.raw
  | SpecOp.eq => eqContains s.raw p
  | SpecOp.ne => !(eqContains s.raw p)
  | SpecOp.le =>
    match parseVersion s.raw with
    | some sv => !(vGt (stripLocal p) sv)
    | none => false
  | SpecOp.ge =>
    match parseVersion s.raw with
    | some sv => !(vLt (stripLocal p) sv)
    | none => false
  | SpecOp.lt =>
    match parseVersion s.raw with
    | some sv =>
      vLt p sv &&
        !(!sv.isPrerelease && p.isPrerelease && vEq (baseVersion p) (baseVersion sv))
    | none => false
  | SpecOp.gt =>
    match parseVersion s.raw with
    | some sv =>
      vGt p sv &&
        !(!sv.isPostrelease && p.isPostrelease && vEq (baseVersion p) (baseVersion sv)) &&
        !(!p.localSegs.isEmpty && vEq (baseVersion p) (baseVersion sv))
    | none => false
  | SpecOp.compatible =>
    match parseVersion s.raw with
    | some sv =>
      !(vLt (stripLocal p) sv) && relMatch sv.epoch sv.release.dropLast p
    | none => false

/-- Mirrors `Specifier.prereleases`: the clause admits pre-releases when its
operator is one of `== >= <= ~= ===` and its (wildcard-stripped) version is
itself a pre-release. -/
def specPrereleases (s : Specifier) : Bool :=
  match s.op with
  | SpecOp.eq | SpecOp.ge | SpecOp.le | SpecOp.compatible | SpecOp.arbitrary =>
    let t := if endsWithStar s.raw then dropStar s.raw else s.raw
    match parseVersion t with
    | some v => v.isPrerelease
    | none => false
  | _ => false

/-- Mirrors `Specifier.contains` with an explicit `prereleases` flag: a
pre-release candidate is rejected unless the flag admits it, then the
operator callable decides. -/
def specContains (s : Specifier) (pre : Bool) (p : PyVersion) : Bool :=
  if p.isPrerelease && !pre then false else specOpContains s p

/-- Mirrors `SpecifierSet.contains` (with the default `prereleases=None`):
the set-level flag is the disjunction of the clauses' flags (`false` for an
empty set), pre-release candidates are rejected unless it holds, and every
clause must accept. -/
def specSetContains (ss : List Specifier) (p : PyVersion) : Bool :=
  let pre := ss.any specPrereleases
  if p.isPrerelease && !pre then false
  else ss.all (fun s => specContains s pre p)

/-! ## The dependency checker (`src/pip4a/checker.py`) -/

/-- The fields of one collection manifest that `Checker._collection_deps`
reads: `details["collection_info"]["version"]` and
`details["collection_info"]["dependencies"]`. -/
structure ManifestRecord where
  version : String
  dependencies : List (String × String)
deriving DecidableEq, Repr

/-- The collection universe: the mapping returned by `collect_manifests`,
collection name to manifest record, in iteration order. -/
abbrev CollUniverse := List (String × ManifestRecord)

/-- Membership test and lookup of `collections[dep]`. -/
def lookupColl (colls : CollUniverse) (name : String) : Option ManifestRecord :=
  (colls.find? (fun p => p.1 == name)).map (fun p => p.2)

/-- An uncaught Python exception escaping the checker:
`packaging.specifiers.InvalidSpecifier` and `packaging.version.InvalidVersion`
carry only the offending text (`"Invalid specifier: '...'"`),
`FileNotFoundError` escapes `missing_file.open()`. -/
inductive CheckErr where
  | invalidSpecifier (text : String)
  | invalidVersion (text : String)
  | reportFileNotFound
deriving DecidableEq, Repr

/-- The warning of the unsatisfied-constraint branch (checker.py lines
64-67). -/
def mismatchMsg (cname dep constraint depVersion : String) : String :=
  "Collection " ++ cname ++ " requires " ++ dep ++ " " ++ constraint ++
    " but " ++ dep ++ " " ++ depVersion ++ " is installed."

/-- The debug confirmation of the satisfied branch (lines 72-75). -/
def satisfiedMsg (cname dep constraint depVersion : String) : String :=
  "✓ Collection " ++ cname ++ " requires " ++ dep ++ " " ++ constraint ++
    " and " ++ dep ++ " " ++ depVersion ++ " is installed."

/-- The warning of the not-installed branch (lines 78-81). -/
def notInstalledMsg (cname dep constraint : String) : String :=
  "Collection " ++ cname ++ " requires " ++ dep ++ " " ++ constraint ++
    " but it is not installed."

/-- The body of the inner loop of `Checker._collection_deps` (lines 58-85)
for one `(dep, version)` pair: parse the constraint, look the dependency up
in the universe, parse its installed version, then warn/debug and flag; the
events emitted and the pair's contribution to `missing`. -/
def checkPair (colls : CollUniverse) (cname dep constraint : String) :
    Except CheckErr (List LogEvent × Bool) :=
  match parseSpecifierSet constraint with
  | none => Except.error (CheckErr.invalidSpecifier constraint)
  | some spec =>
    match lookupColl colls dep with
    | some depRec =>
      match parseVersion depRec.version with
      | none => Except.error (CheckErr.invalidVersion depRec.version)
      | some depVer =>
        if specSetContains spec depVer then
          Except.ok ([LogEvent.debug (satisfiedMsg cname dep constraint depRec.version)],
            false)
        else
          Except.ok ([LogEvent.warning (mismatchMsg cname dep constraint depRec.version)],
            true)
    | none =>
      Except.ok ([LogEvent.warning (notInstalledMsg cname dep constraint),
        LogEvent.hintMsg ("Try running `pip4a install " ++ dep ++ "`")], true)

/-- The inner loop over one collection's declared dependencies. -/
def checkPairs (colls : CollUniverse) (cname : String) :
    List (String × String) → Except CheckErr (List LogEvent × Bool)
  | [] => Except.ok ([], false)
  | (dep, constraint) :: rest =>
    match checkPair colls cname dep constraint with
    | Except.error e => Except.error e
    | Except.ok (e1, m1) =>
      match checkPairs colls cname rest with
      | Except.error e => Except.error e
      | Except.ok (e2, m2) => Except.ok (e1 ++ e2, m1 || m2)

/-- One iteration of the outer loop of `Checker._collection_deps` (lines
50-85): the debug header, the empty-dependencies skip, else the inner loop. -/
def checkCollection (colls : CollUniverse) (cname : String)
    (manifest : ManifestRecord) : Except CheckErr (List LogEvent × Bool) :=
  let hd := LogEvent.debug ("Checking dependencies for " ++ cname ++ ".")
  if manifest.dependencies.isEmpty then
    Except.ok ([hd, LogEvent.debug ("Collection " ++ cname ++ " has no dependencies.")],
      false)
  else
    match checkPairs colls cname manifest.dependencies with
    | Except.error e => Except.error e
    | Except.ok (evs, m) => Except.ok (hd :: evs, m)

/-- The outer loop over every installed collection. -/
def checkCollections (colls : CollUniverse) :
    List (String × ManifestRecord) → Except CheckErr (List LogEvent × Bool)
  | [] => Except.ok ([], false)
  | (cname, manifest) :: rest =>
    match checkCollection colls cname manifest with
    | Except.error e => Except.error e
    | Except.ok (e1, m1) =>
      match checkCollections colls rest with
      | Except.error e => Except.error e
      | Except.ok (e2, m2) => Except.ok (e1 ++ e2, m1 || m2)

/-- `Checker._collection_deps` (lines 44-90): walk the universe, then emit
the single affirmative note when nothing was missing; returns the emitted
events and the `_collections_missing` flag. -/
def collectionDeps (colls : CollUniverse) : Except CheckErr (List LogEvent × Bool) :=
  match checkCollections colls colls with
  | Except.error e => Except.error e
  | Except.ok (evs, missing) =>
    if missing then Except.ok (evs, true)
    else Except.ok (evs ++ [LogEvent.noteMsg "✓ All dependant collections are installed."],
      false)

/-! ## `Checker._python_deps` (lines 92-127) -/

/-- One entry of the dry-run report's `install` list
(`package["metadata"]["name"]` / `["version"]`). -/
structure PipMetadata where
  name : String
  version : String
deriving DecidableEq, Repr

/-- An `install` list entry. -/
structure PipPackage where
  metadata : PipMetadata
deriving DecidableEq, Repr

/-- The parsed dry-run report: `install` may be absent (`none`) or empty. -/
structure PipReport where
  install : Option (List PipPackage)
deriving DecidableEq, Repr

deriving instance DecidableEq for Except

/-- The environment `_python_deps` interacts with: the outcome of the
`pip install --dry-run` subprocess (`Except.error` carries `str(exc)` of the
`CalledProcessError`) and the contents of `pip-report.txt` in the cache
directory (`none` when the file does not exist, so `missing_file.open()`
raises `FileNotFoundError`). -/
structure PyRunEnv where
  subprocessResult : Except String Unit
  reportFile : Option PipReport
deriving DecidableEq, Repr

/-- Modelled from the spec: `oxford_join` of `utils.py` (not under `src/`)
joins entries with natural-language separators: `A`, `A and B`,
`A, B, and C`. -/
def oxfordRest : List String → String
  | [] => ""
  | [a] => ", and " ++ a
  | a :: rest => ", " ++ a ++ oxfordRest rest

/-- Modelled from the spec: top level of `oxford_join`. -/
def oxfordJoin : List String → String
  | [] => ""
  | [a] => a
  | [a, b] => a ++ " and " ++ b
  | a :: rest => a ++ oxfordRest rest

/-- `Checker._python_deps`: run the dry-run install (a `CalledProcessError`
is caught and logged critical, lines 103-107, and execution continues), open
and parse the report (an absent file raises uncaught, line 108), then emit
the note / warning + hint / extra warning (lines 111-127).  Events emitted
before an uncaught exception are not recorded on the error path. -/
def pythonDeps (env : PyRunEnv) (collectionsMissing : Bool) :
    Except CheckErr (List LogEvent) :=
  let pre : List LogEvent :=
    match env.subprocessResult with
    | Except.ok _ => []
    | Except.error e =>
      [LogEvent.critical ("Failed to check python dependencies: " ++ e)]
  match env.reportFile with
  | none => Except.error CheckErr.reportFileNotFound
  | some report =>
    match report.install with
    | some (pkg :: rest) =>
      let missing := (pkg :: rest).map
        (fun p => p.metadata.name ++ "==" ++ p.metadata.version)
      let evs := [LogEvent.warning ("Missing Python dependencies: " ++ oxfordJoin missing),
        LogEvent.hintMsg ("Try running `pip install " ++ String.intercalate " " missing ++ "`.")]
      let extra :=
        if collectionsMissing then
          [LogEvent.warning "Python packages required by missing collections are not included."]
        else []
      Except.ok (pre ++ evs ++ extra)
    | _ => Except.ok (pre ++ [LogEvent.noteMsg "✓ All Python dependencies are installed."])

/-- `Checker.run`: collection verification then Python verification, the
latter consuming the `_collections_missing` flag set by the former. -/
def checkerRun (colls : CollUniverse) (env : PyRunEnv) :
    Except CheckErr (List LogEvent) :=
  match collectionDeps colls with
  | Except.error e => Except.error e
  | Except.ok (evs1, missing) =>
    match pythonDeps env missing with
    | Except.error e => Except.error e
    | Except.ok evs2 => Except.ok (evs1 ++ evs2)

/-! ## The uninstaller (`src/pip4a/uninstaller.py`)

The filesystem tree under `collection_root =
site-packages/ansible_collections` is modelled two levels deep, which is all
`_remove_collections` inspects: root entries (namespace directories and
`.info` metadata directories) and the children of namespace directories
(collection directories or symlinks).  `shutil.rmtree` removes a directory
entry wholesale, so contents below that depth never matter. -/

/-- What a child of a namespace directory is: a directory (removed wholesale
by `rmtree`), a symlink (`unlink`ed, assumed non-dangling so `exists()` is
true), or a regular file (on which `rmtree` raises `NotADirectoryError`). -/
inductive FsCKind where
  | dir
  | symlink
  | file
deriving DecidableEq, Repr

/-- A named child of a namespace directory. -/
structure FsChild where
  name : String
  kind : FsCKind
deriving DecidableEq, Repr

/-- A root-level entry: a directory with its children, a symlink, or a
file. -/
inductive FsRootNode where
  | dir (children : List FsChild)
  | symlink
  | file
deriving DecidableEq, Repr

/-- A named root-level entry of the collection root. -/
structure FsRootEntry where
  name : String
  node : FsRootNode
deriving DecidableEq, Repr

/-- The collection-root tree; `root = none` means the collection root
directory itself does not exist. -/
structure Fs where
  root : Option (List FsRootEntry)
deriving DecidableEq, Repr

/-- The root entries, empty when the root is absent. -/
def Fs.rootEntries (fs : Fs) : List FsRootEntry :=
  fs.root.getD []

/-- First root entry with the given name (`collection_root / ns`). -/
def findEntry (es : List FsRootEntry) (n : String) : Option FsRootEntry :=
  es.find? (fun e => e.name == n)

/-- The kind of the child at `collection_root / ns / nm`, `none` when the
path does not exist (Python `Path.exists`). -/
def childAt (fs : Fs) (ns nm : String) : Option FsCKind :=
  match fs.root with
  | none => none
  | some es =>
    match findEntry es ns with
    | some { name := _, node := FsRootNode.dir cs } =>
      (cs.find? (fun c => c.name == nm)).map (fun c => c.kind)
    | _ => none

/-- Does `collection_root / ns` exist (any kind)? -/
def nsExists (fs : Fs) (ns : String) : Bool :=
  match fs.root with
  | none => false
  | some es => (findEntry es ns).isSome

/-- Rewrite one root node during removal of a child named `nm`: when `hit`,
a directory loses its children named `nm`. -/
def rcNode (hit : Bool) (nm : String) : FsRootNode → FsRootNode
  | FsRootNode.dir cs =>
    if hit then FsRootNode.dir (cs.filter (fun c => !(c.name == nm)))
    else FsRootNode.dir cs
  | n => n

/-- The root-entry rewrite of `removeChild`, name-preserving by
construction. -/
def rcEntry (ns nm : String) (e : FsRootEntry) : FsRootEntry :=
  { name := e.name, node := rcNode (e.name == ns) nm e.node }

/-- Remove the child `collection_root / ns / nm` (both `unlink` of a symlink
and `rmtree` of a directory have this effect at the modelled depth). -/
def removeChild (fs : Fs) (ns nm : String) : Fs :=
  ⟨fs.root.map (fun es => es.map (rcEntry ns nm))⟩

/-- Python `pathlib.PurePath.suffix` of a final path component: the text
from the last dot on, unless that dot is the first or last character. -/
def pySuffix (name : String) : String :=
  let revd := name.data.reverse
  let extRev := revd.takeWhile (fun c => !(c == '.'))
  let rest := revd.drop extRev.length
  match rest with
  | '.' :: r =>
    match r, extRev with
    | _ :: _, _ :: _ => ⟨'.' :: extRev.reverse⟩
    | _, _ => ""
  | _ => ""

/-- The match condition of the metadata scan (uninstaller.py lines 85-91):
`entry.is_dir()`, `entry.name.startswith(collection_name)`,
`entry.suffix == ".info"`. -/
def infoMatch (cname : String) (e : FsRootEntry) : Bool :=
  (match e.node with
   | FsRootNode.dir _ => true
   | _ => false) &&
  (startsWithChars cname.data e.name.data).isSome &&
  pySuffix e.name == ".info"

/-- The metadata scan (lines 84-94): iterate the immediate children of
`collection_root` (not of the namespace directory), `rmtree` every matching
entry, logging each.  The code only reaches this under the guard that the
namespace root exists, so the root exists and `iterdir` cannot raise. -/
def removeInfoDirs (rp : String) (fs : Fs) (cname : String) : Fs × List LogEvent :=
  match fs.root with
  | none => (fs, [])
  | some es =>
    (⟨some (es.filter (fun e => !(infoMatch cname e)))⟩,
     (es.filter (infoMatch cname)).map
       (fun e => LogEvent.info ("Removed " ++ cname ++ "*.info: " ++ rp ++ "/" ++ e.name)))

/-- Lines 81-94: skip the scan when the namespace root does not exist
(`continue`), else run it. -/
def scanStep (rp : String) (fs : Fs) (cname ns : String) (evs : List LogEvent) :
    Fs × List LogEvent :=
  if nsExists fs ns then
    ((removeInfoDirs rp fs cname).1, evs ++ (removeInfoDirs rp fs cname).2)
  else (fs, evs)

/-- Split on a single character, Python `str.split`. -/
def splitOnDot : List Char → List (List Char)
  | [] => [[]]
  | c :: rest =>
    let r := splitOnDot rest
    if c == '.' then [] :: r
    else
      match r with
      | [] => [[c]]
      | h :: t => (c :: h) :: t

/-- Line 59, `namespace, name = collection_name.split(".")`: succeeds only
when the split yields exactly two parts, otherwise Python raises
`ValueError`. -/
def splitDot (s : String) : Option (String × String) :=
  match splitOnDot s.data with
  | [a, b] => some (⟨a⟩, ⟨b⟩)
  | _ => none

/-- Number of dot separators in a collection name. -/
def countDots (s : String) : Nat :=
  s.data.count '.'

/-- An uncaught exception escaping the uninstaller: the `ValueError` of the
two-target unpacking, `NotADirectoryError` from `shutil.rmtree` on a
non-directory, or the `RuntimeError` `_pip_uninstall` raises on a failed
subprocess. -/
inductive UnErr where
  | splitFail (name : String)
  | notADir (path : String)
  | pipFailed (msg : String)
deriving DecidableEq, Repr

/-- One iteration of the per-name loop of `_remove_collections` (lines
58-94): split the name, remove the collection path (unlink a symlink,
rmtree a directory, debug when absent, raise on a plain file), then run the
guarded metadata scan; returns the new tree, the namespace appended to
`collection_namespace_roots`, and the log. -/
def removeOne (rp : String) (fs : Fs) (cname : String) :
    Except UnErr (Fs × String × List LogEvent) :=
  match splitDot cname with
  | none => Except.error (UnErr.splitFail cname)
  | some (ns, nm) =>
    let cpath := rp ++ "/" ++ ns ++ "/" ++ nm
    let ev0 := LogEvent.debug ("Checking " ++ cname ++ " at " ++ cpath)
    match childAt fs ns nm with
    | some FsCKind.file => Except.error (UnErr.notADir cpath)
    | some FsCKind.symlink =>
      let evs := [ev0, LogEvent.debug ("Exists: " ++ cpath),
        LogEvent.info ("Removed " ++ cname ++ ": " ++ cpath)]
      Except.ok ((scanStep rp (removeChild fs ns nm) cname ns evs).1, ns,
        (scanStep rp (removeChild fs ns nm) cname ns evs).2)
    | some FsCKind.dir =>
      let evs := [ev0, LogEvent.debug ("Exists: " ++ cpath),
        LogEvent.info ("Removed " ++ cname ++ ": " ++ cpath)]
      Except.ok ((scanStep rp (removeChild fs ns nm) cname ns evs).1, ns,
        (scanStep rp (removeChild fs ns nm) cname ns evs).2)
    | none =>
      let evs := [ev0, LogEvent.debug ("Failed to find " ++ cname ++ ": " ++ cpath)]
      Except.ok ((scanStep rp fs cname ns evs).1, ns, (scanStep rp fs cname ns evs).2)

/-- The per-name loop, threading the tree and accumulating namespace
roots and events. -/
def removeFold (rp : String) : List String → Fs →
    Except UnErr (Fs × List String × List LogEvent)
  | [], fs => Except.ok (fs, [], [])
  | n :: rest, fs =>
    match removeOne rp fs n with
    | Except.error e => Except.error e
    | Except.ok (fs1, ns, evs1) =>
      match removeFold rp rest fs1 with
      | Except.error e => Except.error e
      | Except.ok (fs2, roots, evs2) => Except.ok (fs2, ns :: roots, evs1 ++ evs2)

/-- Lines 96-105: `rmdir` one namespace root; `FileNotFoundError` is passed
over silently, any other `OSError` (non-empty, not a directory) is only a
warning. -/
def rmdirNs (rp : String) (fs : Fs) (ns : String) : Fs × List LogEvent :=
  match fs.root with
  | none => (fs, [])
  | some es =>
    match findEntry es ns with
    | none => (fs, [])
    | some { name := _, node := FsRootNode.dir [] } =>
      (⟨some (es.filter (fun e => !(e.name == ns)))⟩,
       [LogEvent.info ("Removed collection namespace root: " ++ rp ++ "/" ++ ns)])
    | some _ =>
      (fs, [LogEvent.warning
        ("Failed to remove collection namespace root: " ++ rp ++ "/" ++ ns)])

/-- The loop over all recorded namespace roots. -/
def rmdirNsAll (rp : String) : List String → Fs → Fs × List LogEvent
  | [], fs => (fs, [])
  | ns :: rest, fs =>
    ((rmdirNsAll rp rest (rmdirNs rp fs ns).1).1,
      (rmdirNs rp fs ns).2 ++ (rmdirNsAll rp rest (rmdirNs rp fs ns).1).2)

/-- Lines 107-117: return if the collection root is already gone, else
`rmdir` it, ignoring `FileNotFoundError` and logging other `OSError`s at
debug severity. -/
def rmdirRoot (rp : String) (fs : Fs) : Fs × List LogEvent :=
  match fs.root with
  | none => (fs, [])
  | some [] => (⟨none⟩, [LogEvent.info ("Removed collection root: " ++ rp)])
  | some _ =>
    (fs, [LogEvent.debug ("Failed to remove collection root: " ++ rp)])

/-- `UnInstaller._remove_collections` (lines 49-117) over the list
`[*collection_dependencies, collection_name]`. -/
def removeCollections (rp : String) (names : List String) (fs : Fs) :
    Except UnErr (Fs × List LogEvent) :=
  match removeFold rp names fs with
  | Except.error e => Except.error e
  | Except.ok (fs1, roots, evs1) =>
    Except.ok ((rmdirRoot rp (rmdirNsAll rp roots fs1).1).1,
      evs1 ++ (rmdirNsAll rp roots fs1).2 ++
        (rmdirRoot rp (rmdirNsAll rp roots fs1).1).2)

/-- A requirements file as `_pip_uninstall` sees it: whether the path
exists, its size, and the outcome of the `pip uninstall` subprocess run on
it (`Except.error` carries `str(exc)`). -/
structure ReqFile where
  present : Bool
  size : Nat
  pipResult : Except String Unit
deriving DecidableEq, Repr

/-- `UnInstaller._pip_uninstall` (lines 119-146): skip a missing or empty
file with an info note, else run `pip uninstall`; a `CalledProcessError`
becomes a raised `RuntimeError`.  Returns the log and the commands
invoked. -/
def pipUninstall (pyExe path : String) (f : ReqFile) :
    Except UnErr (List LogEvent × List String) :=
  if !f.present then
    Except.ok ([LogEvent.info ("Requirements file " ++ path ++ " does not exist, skipping")], [])
  else if f.size == 0 then
    Except.ok ([LogEvent.info ("Requirements file " ++ path ++ " is empty, skipping")], [])
  else
    let command := pyExe ++ " -m pip uninstall -r " ++ path ++ " -y"
    let evs := [LogEvent.info ("Uninstalling python requirements from " ++ path),
      LogEvent.debug ("Running command: " ++ command)]
    match f.pipResult with
    | Except.ok _ => Except.ok (evs, [command])
    | Except.error e =>
      Except.error (UnErr.pipFailed
        ("Failed to uninstall requirements from " ++ path ++ ": " ++ e))

/-- The app state `UnInstaller` reads: the requested target
(`args.collection_specifier`), the locally-resolvable collection name, and
its dependency names. -/
structure UnApp where
  collection_specifier : String
  collection_name : String
  collection_dependencies : List String
deriving DecidableEq, Repr

/-- The external environment of an uninstall run: interpreter path, the two
requirements files with their paths, and the collection-root path. -/
structure UnEnv where
  pyExe : String
  reqMainPath : String
  reqTestPath : String
  reqMain : ReqFile
  reqTest : ReqFile
  rootPath : String
deriving DecidableEq, Repr

/-- `UnInstaller.run` (lines 35-47): reject any target that is neither the
local collection name nor `"."` with a critical log and return; otherwise
uninstall both requirements files then remove the collections.  Returns the
log, the subprocess commands invoked, and the resulting tree. -/
def uninstallerRun (app : UnApp) (env : UnEnv) (fs : Fs) :
    Except UnErr (List LogEvent × List String × Fs) :=
  if !(app.collection_specifier == app.collection_name
      || app.collection_specifier == ".") then
    Except.ok ([LogEvent.critical ("Only uninstallation the local collection "
      ++ app.collection_name ++ ") is supported at this time.")], [], fs)
  else
    match pipUninstall env.pyExe env.reqMainPath env.reqMain with
    | Except.error e => Except.error e
    | Except.ok (e1, a1) =>
      match pipUninstall env.pyExe env.reqTestPath env.reqTest with
      | Except.error e => Except.error e
      | Except.ok (e2, a2) =>
        match removeCollections env.rootPath
            (app.collection_dependencies ++ [app.collection_name]) fs with
        | Except.error e => Except.error e
        | Except.ok (fs1, e3) => Except.ok (e1 ++ e2 ++ e3, a1 ++ a2, fs1)

/-! ## Concrete instances used by counterexamples and witnesses -/

/-- Does a log contain any hint event? -/
def hasHint (evs : List LogEvent) : Bool :=
  evs.any (fun e => match e with
    | LogEvent.hintMsg _ => true
    | _ => false)

/-- A universe where `a.a` requires `b.b >=2.0.0` but `b.b 1.0.0` is
installed: an unsatisfied constraint. -/
def exU1 : CollUniverse :=
  [("a.a", { version := "1.0.0", dependencies := [("b.b", ">=2.0.0")] }),
   ("b.b", { version := "1.0.0", dependencies := [] })]

/-- A universe whose only declared constraint, `barf`, is malformed. -/
def exU2 : CollUniverse :=
  [("a.a", { version := "1.0.0", dependencies := [("b.b", "barf")] })]

/-- A universe where the installed dependency's version string `oops` is
malformed. -/
def exU2b : CollUniverse :=
  [("a.a", { version := "1.0.0", dependencies := [("b.b", ">=1.0")] }),
   ("b.b", { version := "oops", dependencies := [] })]

/-- A universe where `a.a` declares `b.b` with an empty constraint and the
installed `b.b` is the pre-release `1.0a1`. -/
def exU5 : CollUniverse :=
  [("a.a", { version := "1.0.0", dependencies := [("b.b", "")] }),
   ("b.b", { version := "1.0a1", dependencies := [] })]

/-- The dry-run report of C4: entries `(x, 1.0)` and `(y, 2.0)`. -/
def exRepC4 : PipReport :=
  ⟨some [⟨⟨"x", "1.0"⟩⟩, ⟨⟨"y", "2.0"⟩⟩]⟩

/-- A successful dry run that produced the C4 report. -/
def exEnvC4 : PyRunEnv :=
  ⟨Except.ok (), some exRepC4⟩

/-- A tree with one collection `ns.nm` installed as a directory. -/
def exFs0 : Fs :=
  ⟨some [⟨"ns", FsRootNode.dir [⟨"nm", FsCKind.dir⟩]⟩]⟩

/-- A tree where the metadata directory `ns.nm-1.0.0.info` sits inside the
namespace directory `ns` rather than at the collection root. -/
def exFsC6 : Fs :=
  ⟨some [⟨"ns", FsRootNode.dir
    [⟨"nm", FsCKind.dir⟩, ⟨"ns.nm-1.0.0.info", FsCKind.dir⟩]⟩]⟩

/-- A tree with the collection `ns.nm` and a root-level metadata directory
`ns.nm-1.0.0.info`, the layout the scan actually handles. -/
def exFsC6b : Fs :=
  ⟨some [⟨"ns", FsRootNode.dir [⟨"nm", FsCKind.dir⟩]⟩,
    ⟨"ns.nm-1.0.0.info", FsRootNode.dir []⟩]⟩

/-- An app whose requested uninstall target matches neither the local
collection nor the self token. -/
def exApp0 : UnApp :=
  ⟨"other.coll", "my.coll", []⟩

/-- An arbitrary uninstall environment with work available to do. -/
def exEnv0 : UnEnv :=
  ⟨"/venv/bin/python", "/r/requirements.txt", "/r/test-requirements.txt",
   ⟨true, 5, Except.ok ()⟩, ⟨true, 7, Except.ok ()⟩, "/sp/ansible_collections"⟩

/-- Well-formedness of one root node: a directory has distinctly named
children. -/
def nodeWf : FsRootNode → Prop
  | FsRootNode.dir cs => (cs.map FsChild.name).Nodup
  | _ => True

instance : (n : FsRootNode) → Decidable (nodeWf n)
  | FsRootNode.dir cs => by unfold nodeWf; infer_instance
  | FsRootNode.symlink => by unfold nodeWf; infer_instance
  | FsRootNode.file => by unfold nodeWf; infer_instance

/-- Well-formedness of a tree: entry names are distinct at each level, as
directory listings of a real filesystem always are. -/
def Fs.wf (fs : Fs) : Prop :=
  (fs.rootEntries.map FsRootEntry.name).Nodup ∧
  ∀ e ∈ fs.rootEntries, nodeWf e.node

instance (fs : Fs) : Decidable fs.wf := by
  unfold Fs.wf
  infer_instance

/-- One tree refines another by removals only: every child path present in
the first is present, with the same kind, in the second. -/
def Shrinks (g f : Fs) : Prop :=
  ∀ a b k, childAt g a b = some k → childAt f a b = some k

/-- Every pair reachable by `Checker._collection_deps` parses: each declared
constraint is a valid specifier set and each installed dependency's version
is a valid version. -/
def wellFormedU (colls : CollUniverse) : Bool :=
  colls.all (fun p => p.2.dependencies.all (fun q =>
    (parseSpecifierSet q.2).isSome &&
    (match lookupColl colls q.1 with
     | some d => (parseVersion d.version).isSome
     | none => true)))

/-! ## Helper lemmas for the checker -/

/-- Any pair reached by the inner loop contributes its events and its
missing flag to the loop's result. -/
lemma checkPairs_mem (colls : CollUniverse) (cname : String) :
    ∀ (pairs : List (String × String)) (dep c : String) (evs : List LogEvent) (m : Bool),
      (dep, c) ∈ pairs → checkPairs colls cname pairs = Except.ok (evs, m) →
      ∃ pevs pm, checkPair colls cname dep c = Except.ok (pevs, pm) ∧
        (∀ e ∈ pevs, e ∈ evs) ∧ (pm = true → m = true) := by
  intro pairs
  induction pairs with
  | nil => intro dep c evs m hmem; simp at hmem
  | cons hd tl ih =>
    rcases hd with ⟨d0, c0⟩
    intro dep c evs m hmem hok
    simp only [checkPairs] at hok
    rcases hp : checkPair colls cname d0 c0 with e | ⟨e1, m1⟩ <;> rw [hp] at hok
    · simp at hok
    · rcases hr : checkPairs colls cname tl with e | ⟨e2, m2⟩ <;> rw [hr] at hok
      · simp at hok
      · simp only [Except.ok.injEq, Prod.mk.injEq] at hok
        obtain ⟨hevs, hm⟩ := hok
        subst hevs; subst hm
        rcases List.mem_cons.mp hmem with heq | hmem2
        · have hd1 : dep = d0 := congrArg Prod.fst heq
          have hc1 : c = c0 := congrArg Prod.snd heq
          subst hd1; subst hc1
          exact ⟨e1, m1, hp, fun e he => List.mem_append_left _ he,
            fun h => by simp [h]⟩
        · obtain ⟨pe, pm, h1, h2, h3⟩ := ih dep c e2 m2 hmem2 hr
          exact ⟨pe, pm, h1, fun e he => List.mem_append_right _ (h2 e he),
            fun h => by simp [h3 h]⟩

/-- Lifts `checkPairs_mem` through one outer-loop iteration. -/
lemma checkCollection_mem (colls : CollUniverse) (cname : String)
    (manifest : ManifestRecord) (dep c : String) (evs : List LogEvent) (m : Bool)
    (hmem : (dep, c) ∈ manifest.dependencies)
    (hok : checkCollection colls cname manifest = Except.ok (evs, m)) :
    ∃ pevs pm, checkPair colls cname dep c = Except.ok (pevs, pm) ∧
      (∀ e ∈ pevs, e ∈ evs) ∧ (pm = true → m = true) := by
  unfold checkCollection at hok
  have hne : manifest.dependencies.isEmpty = false := by
    rcases hd : manifest.dependencies with _ | ⟨a, l⟩
    · rw [hd] at hmem; simp at hmem
    · simp
  rw [hne] at hok
  simp only [Bool.false_eq_true, if_false] at hok
  rcases hr : checkPairs colls cname manifest.dependencies with e | ⟨e2, m2⟩ <;>
    rw [hr] at hok
  · simp at hok
  · simp only [Except.ok.injEq, Prod.mk.injEq] at hok
    obtain ⟨hevs, hm⟩ := hok
    subst hevs; subst hm
    obtain ⟨pe, pm, h1, h2, h3⟩ := checkPairs_mem colls cname _ dep c e2 m2 hmem hr
    exact ⟨pe, pm, h1, fun e he => List.mem_cons_of_mem _ (h2 e he), h3⟩

/-- Lifts the propagation through the loop over all collections. -/
lemma checkCollections_mem (colls : CollUniverse) :
    ∀ (l : List (String × ManifestRecord)) (cname : String) (manifest : ManifestRecord)
      (dep c : String) (evs : List LogEvent) (m : Bool),
      (cname, manifest) ∈ l → (dep, c) ∈ manifest.dependencies →
      checkCollections colls l = Except.ok (evs, m) →
      ∃ pevs pm, checkPair colls cname dep c = Except.ok (pevs, pm) ∧
        (∀ e ∈ pevs, e ∈ evs) ∧ (pm = true → m = true) := by
  intro l
  induction l with
  | nil => intro cname manifest dep c evs m hmem; simp at hmem
  | cons hd tl ih =>
    rcases hd with ⟨n0, man0⟩
    intro cname manifest dep c evs m hmem hdep hok
    simp only [checkCollections] at hok
    rcases hp : checkCollection colls n0 man0 with e | ⟨e1, m1⟩ <;> rw [hp] at hok
    · simp at hok
    · rcases hr : checkCollections colls tl with e | ⟨e2, m2⟩ <;> rw [hr] at hok
      · simp at hok
      · simp only [Except.ok.injEq, Prod.mk.injEq] at hok
        obtain ⟨hevs, hm⟩ := hok
        subst hevs; subst hm
        rcases List.mem_cons.mp hmem with heq | hmem2
        · have h1 : cname = n0 := congrArg Prod.fst heq
          have h2 : manifest = man0 := congrArg Prod.snd heq
          subst h1; subst h2
          obtain ⟨pe, pm, ha, hb, hc⟩ := checkCollection_mem colls cname manifest
            dep c e1 m1 hdep hp
          exact ⟨pe, pm, ha, fun e he => List.mem_append_left _ (hb e he),
            fun h => by simp [hc h]⟩
        · obtain ⟨pe, pm, ha, hb, hc⟩ := ih cname manifest dep c e2 m2 hmem2 hdep hr
          exact ⟨pe, pm, ha, fun e he => List.mem_append_right _ (hb e he),
            fun h => by simp [hc h]⟩

/-- A pair whose constraint parses, and whose installed version parses when
installed, never raises. -/
lemma checkPair_ok_of_parses (colls : CollUniverse) (cname dep c : String)
    (h1 : (parseSpecifierSet c).isSome = true)
    (h2 : ∀ d, lookupColl colls dep = some d → (parseVersion d.version).isSome = true) :
    ∃ r, checkPair colls cname dep c = Except.ok r := by
  rcases hs : parseSpecifierSet c with _ | spec
  · rw [hs] at h1; simp at h1
  · rcases hl : lookupColl colls dep with _ | d
    · refine ⟨([LogEvent.warning (notInstalledMsg cname dep c),
        LogEvent.hintMsg ("Try running `pip4a install " ++ dep ++ "`")], true), ?_⟩
      unfold checkPair
      simp only [hs, hl]
    · rcases hv : parseVersion d.version with _ | v
      · have := h2 d hl; rw [hv] at this; simp at this
      · cases hb : specSetContains spec v
        · refine ⟨([LogEvent.warning (mismatchMsg cname dep c d.version)], true), ?_⟩
          unfold checkPair
          simp only [hs, hl, hv, hb, Bool.false_eq_true, if_false]
        · refine ⟨([LogEvent.debug (satisfiedMsg cname dep c d.version)], false), ?_⟩
          unfold checkPair
          simp only [hs, hl, hv, hb, if_true]

/-- Unpacks `wellFormedU` at one pair. -/
lemma wf_pair (colls : CollUniverse) (h : wellFormedU colls = true)
    (cname : String) (manifest : ManifestRecord) (dep c : String)
    (hm : (cname, manifest) ∈ colls) (hq : (dep, c) ∈ manifest.dependencies) :
    (parseSpecifierSet c).isSome = true ∧
    (∀ d, lookupColl colls dep = some d → (parseVersion d.version).isSome = true) := by
  unfold wellFormedU at h
  rw [List.all_eq_true] at h
  have h2 := h _ hm
  rw [List.all_eq_true] at h2
  have h3 := h2 _ hq
  simp only [Bool.and_eq_true] at h3
  refine ⟨h3.1, ?_⟩
  intro d hd
  have h4 := h3.2
  rw [hd] at h4
  exact h4

/-- The inner loop completes on a well-formed list of pairs. -/
lemma checkPairs_ok_of_wf (colls : CollUniverse) (cname : String) :
    ∀ pairs : List (String × String),
      (∀ dep c, (dep, c) ∈ pairs →
        (parseSpecifierSet c).isSome = true ∧
        (∀ d, lookupColl colls dep = some d → (parseVersion d.version).isSome = true)) →
      ∃ r, checkPairs colls cname pairs = Except.ok r := by
  intro pairs
  induction pairs with
  | nil => intro _; exact ⟨_, rfl⟩
  | cons hd tl ih =>
    rcases hd with ⟨d0, c0⟩
    intro hall
    obtain ⟨⟨e1, m1⟩, hp⟩ := checkPair_ok_of_parses colls cname d0 c0
      (hall d0 c0 (List.mem_cons_self _ _)).1 (hall d0 c0 (List.mem_cons_self _ _)).2
    obtain ⟨⟨e2, m2⟩, hr⟩ := ih (fun dep c hm => hall dep c (List.mem_cons_of_mem _ hm))
    refine ⟨(e1 ++ e2, m1 || m2), ?_⟩
    simp only [checkPairs]
    rw [hp, hr]

/-- The whole walk completes on a well-formed universe. -/
lemma checkCollections_ok_of_wf (colls : CollUniverse) (h : wellFormedU colls = true) :
    ∀ l : List (String × ManifestRecord),
      (∀ p ∈ l, p ∈ colls) →
      ∃ r, checkCollections colls l = Except.ok r := by
  intro l
  induction l with
  | nil => intro _; exact ⟨_, rfl⟩
  | cons hd tl ih =>
    rcases hd with ⟨n0, man0⟩
    intro hsub
    have hm : (n0, man0) ∈ colls := hsub _ (List.mem_cons_self _ _)
    have hcol : ∃ r, checkCollection colls n0 man0 = Except.ok r := by
      unfold checkCollection
      rcases hd : man0.dependencies.isEmpty with _ | _
      · simp only [Bool.false_eq_true, if_false]
        obtain ⟨⟨e2, m2⟩, hr⟩ := checkPairs_ok_of_wf colls n0 man0.dependencies
          (fun dep c hq => wf_pair colls h n0 man0 dep c hm hq)
        rw [hr]
        exact ⟨_, rfl⟩
      · simp
    obtain ⟨⟨e1, m1⟩, hp⟩ := hcol
    obtain ⟨⟨e2, m2⟩, hr⟩ := ih (fun p hp2 => hsub _ (List.mem_cons_of_mem _ hp2))
    refine ⟨(e1 ++ e2, m1 || m2), ?_⟩
    simp only [checkCollections]
    rw [hp, hr]

/-- Evaluation of the unsatisfied-constraint branch of `checkPair`. -/
lemma checkPair_mismatch (colls : CollUniverse) (cname dep c : String)
    (depRec : ManifestRecord) (spec : List Specifier) (v : PyVersion)
    (hlook : lookupColl colls dep = some depRec)
    (hspec : parseSpecifierSet c = some spec)
    (hver : parseVersion depRec.version = some v)
    (hmiss : specSetContains spec v = false) :
    checkPair colls cname dep c =
      Except.ok ([LogEvent.warning (mismatchMsg cname dep c depRec.version)], true) := by
  unfold checkPair
  simp only [hspec, hlook, hver, hmiss, Bool.false_eq_true, if_false]

/-! ## Helper lemmas for the uninstaller name split -/

/-- Splitting on dots yields one more part than there are dots. -/
lemma splitOnDot_length : ∀ cs : List Char, (splitOnDot cs).length = cs.count '.' + 1 := by
  intro cs
  induction cs with
  | nil => rfl
  | cons c rest ih =>
    simp only [splitOnDot]
    cases hc : (c == '.') with
    | true =>
      have : c = '.' := by exact eq_of_beq hc
      subst this
      simp [List.count_cons, ih]
    | false =>
      rcases hr : splitOnDot rest with _ | ⟨h, t⟩
      · rw [hr] at ih; simp at ih
      · rw [hr] at ih
        simp only [List.count_cons, hc, if_false]
        simp only [List.length_cons] at ih ⊢
        simpa using ih

/-- Exactly one dot means the two-part unpacking succeeds. -/
lemma splitDot_isSome_of_one (s : String) (h : countDots s = 1) :
    (splitDot s).isSome = true := by
  unfold splitDot
  have hl := splitOnDot_length s.data
  unfold countDots at h
  rw [h] at hl
  rcases he : splitOnDot s.data with _ | ⟨a, _ | ⟨b, _ | ⟨c, t⟩⟩⟩ <;>
    rw [he] at hl <;> simp_all

/-- Any other number of dots makes the unpacking raise `ValueError`. -/
lemma splitDot_none_of_ne_one (s : String) (h : countDots s ≠ 1) :
    splitDot s = none := by
  unfold splitDot
  have hl := splitOnDot_length s.data
  unfold countDots at h
  rcases he : splitOnDot s.data with _ | ⟨a, _ | ⟨b, _ | ⟨c, t⟩⟩⟩ <;>
    rw [he] at hl <;> simp_all

/-! ## The claims -/

/-- C1 (corrected): for a pair whose dependency is installed with a version
that does not satisfy the declared constraint, the checker emits exactly
one warning for the pair — and, contrary to the claim, no hint — marks the
aggregate missing-flag true, and does not abort the run (on a well-formed
universe the whole walk returns `ok` with the warning among its events and
the flag set). -/
theorem c1_version_mismatch_warning_without_hint (colls : CollUniverse)
    (cname : String) (manifest : ManifestRecord)
    (dep c : String) (depRec : ManifestRecord) (spec : List Specifier) (v : PyVersion)
    (hwf : wellFormedU colls = true)
    (hmem : (cname, manifest) ∈ colls) (hdep : (dep, c) ∈ manifest.dependencies)
    (hlook : lookupColl colls dep = some depRec)
    (hspec : parseSpecifierSet c = some spec)
    (hver : parseVersion depRec.version = some v)
    (hmiss : specSetContains spec v = false) :
    checkPair colls cname dep c =
      Except.ok ([LogEvent.warning (mismatchMsg cname dep c depRec.version)], true) ∧
    ∃ evs, collectionDeps colls = Except.ok (evs, true) ∧
      LogEvent.warning (mismatchMsg cname dep c depRec.version) ∈ evs := by
  have hcp := checkPair_mismatch colls cname dep c depRec spec v hlook hspec hver hmiss
  refine ⟨hcp, ?_⟩
  obtain ⟨⟨evs0, m0⟩, hok⟩ :=
    checkCollections_ok_of_wf colls hwf colls (fun p hp => hp)
  obtain ⟨pevs, pm, h1, h2, h3⟩ :=
    checkCollections_mem colls colls cname manifest dep c evs0 m0 hmem hdep hok
  rw [hcp] at h1
  simp only [Except.ok.injEq, Prod.mk.injEq] at h1
  obtain ⟨hpe, hpm⟩ := h1
  have hm0 : m0 = true := h3 hpm.symm
  subst hm0
  refine ⟨evs0, ?_, ?_⟩
  · unfold collectionDeps
    rw [hok]
    simp
  · exact h2 _ (by rw [← hpe]; exact List.mem_singleton_self _)

/-- C1 witness: in `exU1`, `a.a` requires `b.b >=2.0.0` while `b.b 1.0.0`
is installed. -/
theorem c1_version_mismatch_witness :
    checkPair exU1 "a.a" "b.b" ">=2.0.0" =
      Except.ok ([LogEvent.warning (mismatchMsg "a.a" "b.b" ">=2.0.0" "1.0.0")], true) :=
  (c1_version_mismatch_warning_without_hint exU1 "a.a"
    { version := "1.0.0", dependencies := [("b.b", ">=2.0.0")] }
    "b.b" ">=2.0.0" { version := "1.0.0", dependencies := [] }
    [{ op := SpecOp.ge, raw := "2.0.0" }]
    { epoch := 0, release := [1, 0, 0], pre := none, post := none, dev := none,
      localSegs := [] }
    (by decide) (by decide) (by decide) (by decide) (by decide) (by decide) (by decide)).1

/-- C1 counterexample to the claim as stated: on `exU1` the mismatch is
reported and the flag set, but the event list contains no hint at all. -/
theorem c1_no_hint_counterexample :
    collectionDeps exU1 = Except.ok
      ([LogEvent.debug "Checking dependencies for a.a.",
        LogEvent.warning "Collection a.a requires b.b >=2.0.0 but b.b 1.0.0 is installed.",
        LogEvent.debug "Checking dependencies for b.b.",
        LogEvent.debug "Collection b.b has no dependencies."], true) ∧
    hasHint
      [LogEvent.debug "Checking dependencies for a.a.",
       LogEvent.warning "Collection a.a requires b.b >=2.0.0 but b.b 1.0.0 is installed.",
       LogEvent.debug "Checking dependencies for b.b.",
       LogEvent.debug "Collection b.b has no dependencies."] = false := by
  constructor
  · decide
  · decide

/-- C2 (corrected): a malformed declared constraint, or a malformed version
string on an installed dependency, makes the whole run fail with an
uncaught parse error (nothing is swallowed) — though the raised diagnostic
identifies only the offending text, not the collection/dependency pair. -/
theorem c2_parse_error_fails_run (colls : CollUniverse) (cname : String)
    (manifest : ManifestRecord) (dep c : String)
    (hmem : (cname, manifest) ∈ colls) (hdep : (dep, c) ∈ manifest.dependencies)
    (hbad : parseSpecifierSet c = none ∨
      (∃ depRec, lookupColl colls dep = some depRec ∧
        parseVersion depRec.version = none)) :
    ∃ e, collectionDeps colls = Except.error e := by
  rcases hres : collectionDeps colls with e | ⟨evs, m⟩
  · exact ⟨e, rfl⟩
  · exfalso
    unfold collectionDeps at hres
    rcases hcc : checkCollections colls colls with e | ⟨evs0, m0⟩ <;> rw [hcc] at hres
    · simp at hres
    · obtain ⟨pevs, pm, h1, _, _⟩ :=
        checkCollections_mem colls colls cname manifest dep c evs0 m0 hmem hdep hcc
      rcases hbad with hb | ⟨depRec, hl, hv⟩
      · unfold checkPair at h1
        rw [hb] at h1
        simp at h1
      · unfold checkPair at h1
        rcases hs : parseSpecifierSet c with _ | spec
        · rw [hs] at h1; simp at h1
        · simp only [hs, hl, hv] at h1
          exact absurd h1 (by simp)

/-- C2 witness: the malformed constraint `barf` in `exU2`. -/
theorem c2_parse_error_witness :
    (collectionDeps exU2).isOk = false := by
  obtain ⟨e, h⟩ := c2_parse_error_fails_run exU2 "a.a"
    { version := "1.0.0", dependencies := [("b.b", "barf")] }
    "b.b" "barf" (by decide) (by decide) (Or.inl (by decide))
  rw [h]
  rfl

/-- C2 counterexample to the claim as stated: the raised errors carry only
the malformed constraint or version text — `a.a`/`b.b`, the offending
collection/dependency pair, appear nowhere in the diagnostic value. -/
theorem c2_diagnostic_counterexample :
    collectionDeps exU2 = Except.error (CheckErr.invalidSpecifier "barf") ∧
    collectionDeps exU2b = Except.error (CheckErr.invalidVersion "oops") := by
  constructor
  · decide
  · decide

/-- C3 (confirmed): when the dry-run subprocess fails, the failure only
prepends one critical log entry and the run otherwise proceeds identically
— in particular to opening and parsing the report, which yields `ok` with
the critical entry first whenever the report file exists. -/
theorem c3_dryrun_failure_logged_continues (env : PyRunEnv) (cm : Bool) (e : String)
    (h : env.subprocessResult = Except.error e) :
    pythonDeps env cm = Except.map
      (fun evs => LogEvent.critical ("Failed to check python dependencies: " ++ e) :: evs)
      (pythonDeps { env with subprocessResult := Except.ok () } cm) ∧
    (∀ rep, env.reportFile = some rep →
      ∃ evs, pythonDeps env cm =
        Except.ok (LogEvent.critical ("Failed to check python dependencies: " ++ e) :: evs)) := by
  obtain ⟨sr, rf⟩ := env
  simp only at h
  subst h
  constructor
  · rcases rf with _ | ⟨⟨inst⟩⟩
    · rfl
    · rcases inst with _ | ⟨_ | ⟨p, l⟩⟩ <;> cases cm <;> rfl
  · rintro ⟨inst⟩ hr
    cases hr
    rcases inst with _ | ⟨_ | ⟨p, l⟩⟩ <;> cases cm <;> exact ⟨_, rfl⟩

/-- C3 witness: a failed dry run with an existing report. -/
theorem c3_dryrun_failure_witness :
    pythonDeps ⟨Except.error "boom", some exRepC4⟩ false = Except.map
      (fun evs => LogEvent.critical ("Failed to check python dependencies: " ++ "boom") :: evs)
      (pythonDeps ⟨Except.ok (), some exRepC4⟩ false) :=
  (c3_dryrun_failure_logged_continues ⟨Except.error "boom", some exRepC4⟩ false "boom" rfl).1

/-- C4 (corrected): for the two-entry report the warning lists exactly
`x==1.0 and y==2.0`, but the hint message is the full sentence
`` Try running `pip install x==1.0 y==2.0`. `` rather than the bare
command. -/
theorem c4_missing_python_messages :
    pythonDeps exEnvC4 false = Except.ok
      [LogEvent.warning "Missing Python dependencies: x==1.0 and y==2.0",
       LogEvent.hintMsg "Try running `pip install x==1.0 y==2.0`."] := by
  decide

/-- C4 counterexample to the claim as stated: the emitted events are
exactly the two above, and no event carries the bare message
`pip install x==1.0 y==2.0`. -/
theorem c4_hint_exact_counterexample :
    pythonDeps exEnvC4 false = Except.ok
      [LogEvent.warning "Missing Python dependencies: x==1.0 and y==2.0",
       LogEvent.hintMsg "Try running `pip install x==1.0 y==2.0`."] ∧
    LogEvent.hintMsg "pip install x==1.0 y==2.0" ∉
      [LogEvent.warning "Missing Python dependencies: x==1.0 and y==2.0",
       LogEvent.hintMsg "Try running `pip install x==1.0 y==2.0`."] := by
  constructor
  · decide
  · decide

/-- C5 (corrected): an empty constraint string parses to the empty
specifier set, which satisfies every non-pre-release version (vacuous
`all`), but — contrary to the claim — rejects every pre-release version
(`SpecifierSet.contains` gates pre-releases behind a flag that is false for
an empty set), so such a dependency is reported as a version mismatch. -/
theorem c5_empty_constraint_prerelease_gate (colls : CollUniverse) (cname dep : String)
    (depRec : ManifestRecord) (v : PyVersion)
    (hlook : lookupColl colls dep = some depRec)
    (hver : parseVersion depRec.version = some v) :
    parseSpecifierSet "" = some [] ∧
    (v.isPrerelease = false →
      checkPair colls cname dep "" =
        Except.ok ([LogEvent.debug (satisfiedMsg cname dep "" depRec.version)], false)) ∧
    (v.isPrerelease = true →
      checkPair colls cname dep "" =
        Except.ok ([LogEvent.warning (mismatchMsg cname dep "" depRec.version)], true)) := by
  have hempty : parseSpecifierSet "" = some [] := by decide
  refine ⟨hempty, ?_, ?_⟩
  · intro hpre
    have hc : specSetContains [] v = true := by
      unfold specSetContains
      simp [hpre]
    unfold checkPair
    simp only [hempty, hlook, hver, hc, if_true]
  · intro hpre
    have hc : specSetContains [] v = false := by
      unfold specSetContains
      simp [hpre]
    unfold checkPair
    simp only [hempty, hlook, hver, hc, Bool.false_eq_true, if_false]

/-- C5 witness: the pre-release `1.0a1` under the empty constraint is
reported as a mismatch. -/
theorem c5_empty_constraint_witness :
    checkPair exU5 "a.a" "b.b" "" =
      Except.ok ([LogEvent.warning (mismatchMsg "a.a" "b.b" "" "1.0a1")], true) :=
  (c5_empty_constraint_prerelease_gate exU5 "a.a" "b.b"
    { version := "1.0a1", dependencies := [] }
    { epoch := 0, release := [1, 0], pre := some (PrePhase.a, 1), post := none,
      dev := none, localSegs := [] }
    (by decide) (by decide)).2.2 (by decide)

/-- C5 counterexample to the claim as stated: in `exU5` the dependency
declared with the empty constraint and installed at `1.0a1` is reported as
a version mismatch with the missing-flag set. -/
theorem c5_prerelease_counterexample :
    collectionDeps exU5 = Except.ok
      ([LogEvent.debug "Checking dependencies for a.a.",
        LogEvent.warning "Collection a.a requires b.b  but b.b 1.0a1 is installed.",
        LogEvent.debug "Checking dependencies for b.b.",
        LogEvent.debug "Collection b.b has no dependencies."], true) := by
  decide

/-- C7 (confirmed): an uninstall target that is neither the local
collection name nor the self token `"."` yields exactly one critical log
entry, no subprocess invocation, and an unchanged tree. -/
theorem c7_invalid_target_no_work (app : UnApp) (env : UnEnv) (fs : Fs)
    (h1 : app.collection_specifier ≠ app.collection_name)
    (h2 : app.collection_specifier ≠ ".") :
    uninstallerRun app env fs =
      Except.ok ([LogEvent.critical ("Only uninstallation the local collection "
        ++ app.collection_name ++ ") is supported at this time.")], [], fs) := by
  have hb : (app.collection_specifier == app.collection_name
      || app.collection_specifier == ".") = false := by
    simp [h1, h2]
  simp [uninstallerRun, hb]

/-- C7 witness: target `other.coll` against local collection `my.coll`. -/
theorem c7_invalid_target_witness :
    uninstallerRun exApp0 exEnv0 exFs0 =
      Except.ok ([LogEvent.critical ("Only uninstallation the local collection "
        ++ "my.coll" ++ ") is supported at this time.")], [], exFs0) :=
  c7_invalid_target_no_work exApp0 exEnv0 exFs0 (by decide) (by decide)

/-- C9 (confirmed): a name with exactly one dot always splits into
namespace and leaf, while a name with zero or several dots makes the
per-name removal step raise before touching the tree. -/
theorem c9_split_single_separator (s rp : String) (fs : Fs) :
    (countDots s = 1 → (splitDot s).isSome = true) ∧
    (countDots s ≠ 1 → removeOne rp fs s = Except.error (UnErr.splitFail s)) := by
  constructor
  · exact splitDot_isSome_of_one s
  · intro h
    have := splitDot_none_of_ne_one s h
    simp [removeOne, this]

/-- C9 witness: `a.b` splits; `abc` raises. -/
theorem c9_split_witness :
    ((splitDot "a.b").isSome = true) ∧
    removeOne "/sp/ansible_collections" exFs0 "abc" =
      Except.error (UnErr.splitFail "abc") :=
  ⟨(c9_split_single_separator "a.b" "/sp/ansible_collections" exFs0).1 (by decide),
   (c9_split_single_separator "abc" "/sp/ansible_collections" exFs0).2 (by decide)⟩

/-- C10 (confirmed): whatever the dry run did, a missing report file makes
`_python_deps` raise an uncaught `FileNotFoundError` at `open()`, aborting
the check. -/
theorem c10_missing_report_uncaught (env : PyRunEnv) (cm : Bool)
    (h : env.reportFile = none) :
    pythonDeps env cm = Except.error CheckErr.reportFileNotFound := by
  obtain ⟨sr, rf⟩ := env
  simp only at h
  subst h
  cases sr <;> rfl

/-- C10 witness: a failed dry run with no report file. -/
theorem c10_missing_report_witness :
    pythonDeps ⟨Except.error "boom", none⟩ false =
      Except.error CheckErr.reportFileNotFound :=
  c10_missing_report_uncaught ⟨Except.error "boom", none⟩ false rfl

/-! ## Helper lemmas for the uninstaller tree operations -/

lemma find?_filter_imp {α : Type} (p q : α → Bool)
    (himp : ∀ x, p x = true → q x = true) :
    ∀ l : List α, (l.filter q).find? p = l.find? p := by
  intro l
  induction l with
  | nil => rfl
  | cons e tl ih =>
    cases hq : q e
    · have hp : p e = false := by
        cases hp : p e
        · rfl
        · exact absurd (himp e hp) (by simp [hq])
      rw [List.filter_cons_of_neg (by simp [hq]), List.find?_cons_of_neg _ (by simp [hp])]
      exact ih
    · rw [List.filter_cons_of_pos (by simp [hq])]
      cases hp : p e
      · rw [List.find?_cons_of_neg _ (by simp [hp]), List.find?_cons_of_neg _ (by simp [hp])]
        exact ih
      · rw [List.find?_cons_of_pos _ (by simp [hp]), List.find?_cons_of_pos _ (by simp [hp])]

lemma find?_beq_filter {α : Type} (name : α → String) (a : String) (q : α → Bool) :
    ∀ (l : List α), (l.map name).Nodup → ∀ f : α,
      (l.filter q).find? (fun e => name e == a) = some f →
      l.find? (fun e => name e == a) = some f := by
  intro l
  induction l with
  | nil => intro _ f h; simp at h
  | cons e tl ih =>
    intro hnd f h
    rw [List.map_cons, List.nodup_cons] at hnd
    obtain ⟨hnm, hnd2⟩ := hnd
    cases hq : q e
    · rw [List.filter_cons_of_neg (by simp [hq])] at h
      have h2 := ih hnd2 f h
      cases hne : (name e == a)
      · rw [List.find?_cons_of_neg _ (by simp [hne])]
        exact h2
      · exfalso
        have hfm : f ∈ tl := List.mem_of_find?_eq_some h2
        have hfa := List.find?_some h2
        simp only [beq_iff_eq] at hfa
        have hmem : name f ∈ tl.map name := List.mem_map_of_mem _ hfm
        rw [hfa, ← eq_of_beq hne] at hmem
        exact hnm hmem
    · rw [List.filter_cons_of_pos (by simp [hq])] at h
      cases hne : (name e == a)
      · rw [List.find?_cons_of_neg _ (by simp [hne])] at h ⊢
        exact ih hnd2 f h
      · rw [List.find?_cons_of_pos _ (by simp [hne])] at h ⊢
        exact h

lemma rcEntry_name (ns nm : String) (e : FsRootEntry) :
    (rcEntry ns nm e).name = e.name := rfl

lemma findEntry_map_rcEntry (ns nm a : String) :
    ∀ es : List FsRootEntry,
      findEntry (es.map (rcEntry ns nm)) a = (findEntry es a).map (rcEntry ns nm) := by
  intro es
  induction es with
  | nil => rfl
  | cons e tl ih =>
    unfold findEntry at *
    rw [List.map_cons]
    cases he : (e.name == a)
    · rw [List.find?_cons_of_neg _ (by simp [rcEntry_name, he]),
        List.find?_cons_of_neg _ (by simp [he])]
      exact ih
    · rw [List.find?_cons_of_pos _ (by simp [rcEntry_name, he]),
        List.find?_cons_of_pos _ (by simp [he])]
      rfl

lemma find?_not_mem_filter (nm : String) (cs : List FsChild) :
    (cs.filter (fun c => !(c.name == nm))).find? (fun c => c.name == nm) = none := by
  rw [List.find?_eq_none]
  intro c hc
  have h2 := (List.mem_filter.mp hc).2
  simp only [Bool.not_eq_true'] at h2
  simp [h2]

lemma rootEntries_of_root (fs : Fs) (es : List FsRootEntry) (h : fs.root = some es) :
    fs.rootEntries = es := by
  unfold Fs.rootEntries
  rw [h]
  rfl

lemma childAt_of_root (fs : Fs) (es : List FsRootEntry) (a b : String)
    (h : fs.root = some es) :
    childAt fs a b = childAt ⟨some es⟩ a b := by
  unfold childAt
  rw [h]

lemma childAt_removeChild (fs : Fs) (ns nm a b : String) :
    childAt (removeChild fs ns nm) a b =
      if a = ns ∧ b = nm then none else childAt fs a b := by
  rcases hroot : fs.root with _ | es
  · unfold childAt removeChild
    rw [hroot]
    simp
  · unfold childAt removeChild
    rw [hroot]
    simp only [Option.map_some']
    rw [findEntry_map_rcEntry]
    rcases he : findEntry es a with _ | ⟨n0, nd⟩
    · simp
    · unfold findEntry at he
      have hname := List.find?_some he
      simp only [beq_iff_eq] at hname
      subst hname
      cases hn : (n0 == ns)
      · have hane : ¬(n0 = ns ∧ b = nm) := by
          intro hc
          rw [hc.1] at hn
          simp at hn
        rcases nd with cs | _ | _ <;>
          simp [rcEntry, rcNode, hn, hane]
      · have hans : n0 = ns := eq_of_beq hn
        rcases nd with cs | _ | _
        · by_cases hb : b = nm
          · subst hb
            simp [rcEntry, rcNode, hn, hans, find?_not_mem_filter]
          · have hane : ¬(n0 = ns ∧ b = nm) := fun hc => hb hc.2
            have hfilter : (cs.filter (fun c => !(c.name == nm))).find?
                (fun c => c.name == b) = cs.find? (fun c => c.name == b) := by
              apply find?_filter_imp
              intro x hx
              have hxb := eq_of_beq hx
              simp [hxb, hb]
            simp [rcEntry, rcNode, hn, hans, hane, hfilter, hb]
        · simp [rcEntry, rcNode, hn]
        · simp [rcEntry, rcNode, hn]

lemma childAt_removeChild_self (fs : Fs) (ns nm : String) :
    childAt (removeChild fs ns nm) ns nm = none := by
  rw [childAt_removeChild]
  simp

lemma nsExists_removeChild (fs : Fs) (ns nm a : String) :
    nsExists (removeChild fs ns nm) a = nsExists fs a := by
  rcases hroot : fs.root with _ | es
  · simp [nsExists, removeChild, hroot]
  · unfold nsExists removeChild
    rw [hroot]
    simp only [Option.map_some']
    rw [findEntry_map_rcEntry]
    rcases he : findEntry es a with _ | e <;> simp

lemma wf_removeChild (fs : Fs) (ns nm : String) (hwf : fs.wf) :
    (removeChild fs ns nm).wf := by
  obtain ⟨h1, h2⟩ := hwf
  rcases hroot : fs.root with _ | es
  · constructor <;> simp [Fs.rootEntries, removeChild, hroot]
  · rw [rootEntries_of_root fs es hroot] at h1 h2
    have hre : (removeChild fs ns nm).rootEntries = es.map (rcEntry ns nm) := by
      unfold removeChild
      rw [hroot]
      rfl
    constructor
    · rw [hre, List.map_map]
      have hcomp : FsRootEntry.name ∘ rcEntry ns nm = FsRootEntry.name :=
        funext (fun e => rfl)
      rw [hcomp]
      exact h1
    · rw [hre]
      intro e he
      obtain ⟨e0, he0, heq⟩ := List.mem_map.mp he
      subst heq
      rcases e0 with ⟨n0, cs | _ | _⟩
      · show nodeWf (rcNode (n0 == ns) nm (FsRootNode.dir cs))
        have hn0 := h2 _ he0
        unfold nodeWf at hn0 ⊢
        unfold rcNode
        cases (n0 == ns)
        · simpa using hn0
        · simp only [if_true]
          exact List.Nodup.sublist ((List.filter_sublist _).map _) hn0
      · trivial
      · trivial

lemma childAt_rootFilter_sub (es : List FsRootEntry) (q : FsRootEntry → Bool)
    (hnd : (es.map FsRootEntry.name).Nodup) (a b : String) (k : FsCKind)
    (h : childAt ⟨some (es.filter q)⟩ a b = some k) :
    childAt ⟨some es⟩ a b = some k := by
  simp only [childAt] at h ⊢
  rcases he : findEntry (es.filter q) a with _ | e
  · rw [he] at h; simp at h
  · rw [he] at h
    have h2 : findEntry es a = some e := by
      unfold findEntry at he ⊢
      exact find?_beq_filter FsRootEntry.name a q es hnd e he
    rw [h2]
    exact h

lemma wf_rootFilter (es : List FsRootEntry) (q : FsRootEntry → Bool)
    (h1 : (es.map FsRootEntry.name).Nodup) (h2 : ∀ e ∈ es, nodeWf e.node) :
    (Fs.mk (some (es.filter q))).wf := by
  constructor
  · rw [rootEntries_of_root _ _ rfl]
    exact List.Nodup.sublist ((List.filter_sublist _).map _) h1
  · rw [rootEntries_of_root _ _ rfl]
    intro e he
    exact h2 _ (List.mem_filter.mp he).1

lemma removeInfoDirs_sub (rp : String) (fs : Fs) (cname : String) (hwf : fs.wf)
    (a b : String) (k : FsCKind)
    (h : childAt (removeInfoDirs rp fs cname).1 a b = some k) :
    childAt fs a b = some k := by
  rcases hroot : fs.root with _ | es
  · unfold removeInfoDirs at h
    rw [hroot] at h
    exact h
  · unfold removeInfoDirs at h
    rw [hroot] at h
    rw [childAt_of_root fs es a b hroot]
    have hnd := hwf.1
    rw [rootEntries_of_root fs es hroot] at hnd
    exact childAt_rootFilter_sub es _ hnd a b k h

lemma wf_removeInfoDirs (rp : String) (fs : Fs) (cname : String) (hwf : fs.wf) :
    (removeInfoDirs rp fs cname).1.wf := by
  rcases hroot : fs.root with _ | es
  · unfold removeInfoDirs
    rw [hroot]
    exact hwf
  · unfold removeInfoDirs
    rw [hroot]
    obtain ⟨h1, h2⟩ := hwf
    rw [rootEntries_of_root fs es hroot] at h1 h2
    exact wf_rootFilter es _ h1 h2

lemma removeInfoDirs_noMatch (rp : String) (fs : Fs) (cname : String) :
    ∀ e ∈ (removeInfoDirs rp fs cname).1.rootEntries, infoMatch cname e = false := by
  rcases hroot : fs.root with _ | es
  · unfold removeInfoDirs
    rw [hroot]
    intro e he
    unfold Fs.rootEntries at he
    rw [hroot] at he
    simp at he
  · unfold removeInfoDirs
    rw [hroot]
    intro e he
    rw [rootEntries_of_root _ _ rfl] at he
    have h2 := (List.mem_filter.mp he).2
    simpa using h2

lemma scanStep_sub (rp : String) (fs : Fs) (cname ns : String) (evs : List LogEvent)
    (hwf : fs.wf) (a b : String) (k : FsCKind)
    (h : childAt (scanStep rp fs cname ns evs).1 a b = some k) :
    childAt fs a b = some k := by
  unfold scanStep at h
  cases hg : nsExists fs ns <;> rw [hg] at h
  · simpa using h
  · simp only [if_true] at h
    exact removeInfoDirs_sub rp fs cname hwf a b k h

lemma wf_scanStep (rp : String) (fs : Fs) (cname ns : String) (evs : List LogEvent)
    (hwf : fs.wf) : (scanStep rp fs cname ns evs).1.wf := by
  unfold scanStep
  cases hg : nsExists fs ns
  · simp only [hg, Bool.false_eq_true, if_false]
    exact hwf
  · simp only [hg, if_true]
    exact wf_removeInfoDirs rp fs cname hwf

lemma rmdirNs_sub (rp : String) (fs : Fs) (ns : String) (hwf : fs.wf)
    (a b : String) (k : FsCKind)
    (h : childAt (rmdirNs rp fs ns).1 a b = some k) :
    childAt fs a b = some k := by
  unfold rmdirNs at h
  rcases hroot : fs.root with _ | es <;> simp only [hroot] at h
  · exact h
  · rcases he : findEntry es ns with _ | ⟨n0, cs | _ | _⟩ <;> simp only [he] at h
    · exact h
    · rcases cs with _ | ⟨c0, cs2⟩
      · have hnd := hwf.1
        rw [rootEntries_of_root fs es hroot] at hnd
        rw [childAt_of_root fs es a b hroot]
        exact childAt_rootFilter_sub es _ hnd a b k h
      · exact h
    · exact h
    · exact h

lemma wf_rmdirNs (rp : String) (fs : Fs) (ns : String) (hwf : fs.wf) :
    (rmdirNs rp fs ns).1.wf := by
  unfold rmdirNs
  rcases hroot : fs.root with _ | es
  · simp only [hroot]
    exact hwf
  · simp only [hroot]
    rcases he : findEntry es ns with _ | ⟨n0, cs | _ | _⟩
    · exact hwf
    · rcases cs with _ | ⟨c0, cs2⟩
      · obtain ⟨h1, h2⟩ := hwf
        rw [rootEntries_of_root fs es hroot] at h1 h2
        exact wf_rootFilter es _ h1 h2
      · exact hwf
    · exact hwf
    · exact hwf

lemma rmdirNsAll_sub_wf (rp : String) :
    ∀ (roots : List String) (fs : Fs), fs.wf →
      ((∀ a b k, childAt (rmdirNsAll rp roots fs).1 a b = some k →
        childAt fs a b = some k) ∧ (rmdirNsAll rp roots fs).1.wf) := by
  intro roots
  induction roots with
  | nil => intro fs hwf; exact ⟨fun a b k h => h, hwf⟩
  | cons ns rest ih =>
    intro fs hwf
    have hwf1 : (rmdirNs rp fs ns).1.wf := wf_rmdirNs rp fs ns hwf
    obtain ⟨ihsub, ihwf⟩ := ih (rmdirNs rp fs ns).1 hwf1
    constructor
    · intro a b k h
      unfold rmdirNsAll at h
      simp only at h
      exact rmdirNs_sub rp fs ns hwf a b k (ihsub a b k h)
    · unfold rmdirNsAll
      simp only
      exact ihwf

lemma rmdirRoot_sub_wf (rp : String) (fs : Fs) (hwf : fs.wf) :
    (∀ a b k, childAt (rmdirRoot rp fs).1 a b = some k → childAt fs a b = some k) ∧
      (rmdirRoot rp fs).1.wf := by
  unfold rmdirRoot
  rcases hroot : fs.root with _ | ⟨_ | ⟨e0, es⟩⟩ <;> simp only [hroot]
  · exact ⟨fun a b k h => h, hwf⟩
  · constructor
    · intro a b k h
      simp [childAt] at h
    · constructor <;> simp [Fs.rootEntries]
  · exact ⟨fun a b k h => h, hwf⟩

lemma removeOne_sub_wf (rp : String) (fs : Fs) (cname : String)
    (fs2 : Fs) (nsr : String) (evs : List LogEvent) (hwf : fs.wf)
    (hok : removeOne rp fs cname = Except.ok (fs2, nsr, evs)) :
    (∀ a b k, childAt fs2 a b = some k → childAt fs a b = some k) ∧ fs2.wf := by
  unfold removeOne at hok
  rcases hsp : splitDot cname with _ | ⟨ns, nm⟩ <;> simp only [hsp] at hok
  · simp at hok
  · rcases hc : childAt fs ns nm with _ | (_ | _ | _) <;> simp only [hc] at hok
    · simp only [Except.ok.injEq, Prod.mk.injEq] at hok
      obtain ⟨h1, h2, h3⟩ := hok
      subst h1
      constructor
      · intro a b k h
        exact scanStep_sub rp fs cname ns _ hwf a b k h
      · exact wf_scanStep rp fs cname ns _ hwf
    · simp only [Except.ok.injEq, Prod.mk.injEq] at hok
      obtain ⟨h1, h2, h3⟩ := hok
      subst h1
      have hwfm : (removeChild fs ns nm).wf := wf_removeChild fs ns nm hwf
      constructor
      · intro a b k h
        have h4 := scanStep_sub rp (removeChild fs ns nm) cname ns _ hwfm a b k h
        rw [childAt_removeChild] at h4
        by_cases hcond : a = ns ∧ b = nm
        · rw [if_pos hcond] at h4; simp at h4
        · rw [if_neg hcond] at h4; exact h4
      · exact wf_scanStep rp (removeChild fs ns nm) cname ns _ hwfm
    · simp only [Except.ok.injEq, Prod.mk.injEq] at hok
      obtain ⟨h1, h2, h3⟩ := hok
      subst h1
      have hwfm : (removeChild fs ns nm).wf := wf_removeChild fs ns nm hwf
      constructor
      · intro a b k h
        have h4 := scanStep_sub rp (removeChild fs ns nm) cname ns _ hwfm a b k h
        rw [childAt_removeChild] at h4
        by_cases hcond : a = ns ∧ b = nm
        · rw [if_pos hcond] at h4; simp at h4
        · rw [if_neg hcond] at h4; exact h4
      · exact wf_scanStep rp (removeChild fs ns nm) cname ns _ hwfm
    · exact absurd hok (by simp)

lemma removeOne_absent_after (rp : String) (fs : Fs) (cname ns nm : String)
    (fs2 : Fs) (nsr : String) (evs : List LogEvent) (hwf : fs.wf)
    (hsp : splitDot cname = some (ns, nm))
    (hok : removeOne rp fs cname = Except.ok (fs2, nsr, evs)) :
    childAt fs2 ns nm = none ∧ nsr = ns := by
  unfold removeOne at hok
  simp only [hsp] at hok
  rcases hc : childAt fs ns nm with _ | (_ | _ | _) <;> simp only [hc] at hok
  · simp only [Except.ok.injEq, Prod.mk.injEq] at hok
    obtain ⟨h1, h2, h3⟩ := hok
    subst h1
    refine ⟨?_, h2.symm⟩
    rcases hfin : childAt (scanStep rp fs cname ns _).1 ns nm with _ | k
    · rfl
    · have h5 := scanStep_sub rp fs cname ns _ hwf ns nm k hfin
      rw [hc] at h5
      simp at h5
  · simp only [Except.ok.injEq, Prod.mk.injEq] at hok
    obtain ⟨h1, h2, h3⟩ := hok
    subst h1
    refine ⟨?_, h2.symm⟩
    have hwfm : (removeChild fs ns nm).wf := wf_removeChild fs ns nm hwf
    rcases hfin : childAt (scanStep rp (removeChild fs ns nm) cname ns _).1 ns nm with _ | k
    · rfl
    · have h4 := scanStep_sub rp (removeChild fs ns nm) cname ns _ hwfm ns nm k hfin
      rw [childAt_removeChild_self] at h4
      simp at h4
  · simp only [Except.ok.injEq, Prod.mk.injEq] at hok
    obtain ⟨h1, h2, h3⟩ := hok
    subst h1
    refine ⟨?_, h2.symm⟩
    have hwfm : (removeChild fs ns nm).wf := wf_removeChild fs ns nm hwf
    rcases hfin : childAt (scanStep rp (removeChild fs ns nm) cname ns _).1 ns nm with _ | k
    · rfl
    · have h4 := scanStep_sub rp (removeChild fs ns nm) cname ns _ hwfm ns nm k hfin
      rw [childAt_removeChild_self] at h4
      simp at h4
  · exact absurd hok (by simp)

lemma removeOne_ok_of_absent (rp : String) (fs : Fs) (cname ns nm : String)
    (hsp : splitDot cname = some (ns, nm))
    (habs : childAt fs ns nm = none) :
    ∃ fs2 evs, removeOne rp fs cname = Except.ok (fs2, ns, evs) := by
  rcases hres : removeOne rp fs cname with e | ⟨fs2, nsr, evs⟩
  · exfalso
    unfold removeOne at hres
    simp only [hsp, habs] at hres
    exact absurd hres (by simp)
  · have hres2 := hres
    unfold removeOne at hres2
    simp only [hsp, habs] at hres2
    simp only [Except.ok.injEq, Prod.mk.injEq] at hres2
    obtain ⟨h1, h2, h3⟩ := hres2
    subst h2
    exact ⟨fs2, evs, rfl⟩

lemma removeFold_sub_wf (rp : String) :
    ∀ (names : List String) (fs fs1 : Fs) (roots : List String) (evs : List LogEvent),
      fs.wf → removeFold rp names fs = Except.ok (fs1, roots, evs) →
      (∀ a b k, childAt fs1 a b = some k → childAt fs a b = some k) ∧ fs1.wf := by
  intro names
  induction names with
  | nil =>
    intro fs fs1 roots evs hwf hok
    simp only [removeFold, Except.ok.injEq, Prod.mk.injEq] at hok
    obtain ⟨h1, _, _⟩ := hok
    subst h1
    exact ⟨fun a b k h => h, hwf⟩
  | cons n rest ih =>
    intro fs fs1 roots evs hwf hok
    simp only [removeFold] at hok
    rcases h1 : removeOne rp fs n with e | ⟨fsa, nsa, evsa⟩ <;> simp only [h1] at hok
    · exact absurd hok (by simp)
    · rcases h2 : removeFold rp rest fsa with e | ⟨fsb, rootsb, evsb⟩ <;>
        simp only [h2] at hok
      · exact absurd hok (by simp)
      · simp only [Except.ok.injEq, Prod.mk.injEq] at hok
        obtain ⟨hf, _, _⟩ := hok
        subst hf
        obtain ⟨sub1, wf1⟩ := removeOne_sub_wf rp fs n fsa nsa evsa hwf h1
        obtain ⟨sub2, wf2⟩ := ih fsa fsb rootsb evsb wf1 h2
        exact ⟨fun a b k h => sub1 a b k (sub2 a b k h), wf2⟩

lemma removeFold_absents (rp : String) :
    ∀ (names : List String) (fs fs1 : Fs) (roots : List String) (evs : List LogEvent),
      fs.wf → removeFold rp names fs = Except.ok (fs1, roots, evs) →
      ∀ n ∈ names, ∃ ns nm, splitDot n = some (ns, nm) ∧ childAt fs1 ns nm = none := by
  intro names
  induction names with
  | nil => intro fs fs1 roots evs _ _ n hn; simp at hn
  | cons n0 rest ih =>
    intro fs fs1 roots evs hwf hok n hn
    simp only [removeFold] at hok
    rcases h1 : removeOne rp fs n0 with e | ⟨fsa, nsa, evsa⟩ <;> simp only [h1] at hok
    · exact absurd hok (by simp)
    · rcases h2 : removeFold rp rest fsa with e | ⟨fsb, rootsb, evsb⟩ <;>
        simp only [h2] at hok
      · exact absurd hok (by simp)
      · simp only [Except.ok.injEq, Prod.mk.injEq] at hok
        obtain ⟨hf, _, _⟩ := hok
        subst hf
        obtain ⟨sub1, wf1⟩ := removeOne_sub_wf rp fs n0 fsa nsa evsa hwf h1
        rcases List.mem_cons.mp hn with heq | hmem
        · subst heq
          have hsp : ∃ ns nm, splitDot n = some (ns, nm) := by
            rcases hs : splitDot n with _ | ⟨ns, nm⟩
            · exfalso
              unfold removeOne at h1
              rw [hs] at h1
              simp at h1
            · exact ⟨ns, nm, rfl⟩
          obtain ⟨ns, nm, hs⟩ := hsp
          obtain ⟨habs, _⟩ := removeOne_absent_after rp fs n ns nm fsa nsa evsa hwf hs h1
          refine ⟨ns, nm, hs, ?_⟩
          obtain ⟨sub2, _⟩ := removeFold_sub_wf rp rest fsa fsb rootsb evsb wf1 h2
          rcases hfin : childAt fsb ns nm with _ | k
          · rfl
          · have h6 := sub2 ns nm k hfin
            rw [habs] at h6
            simp at h6
        · exact ih fsa fsb rootsb evsb wf1 h2 n hmem

lemma removeFold_ok_of_absents (rp : String) :
    ∀ (names : List String) (fs : Fs), fs.wf →
      (∀ n ∈ names, ∃ ns nm, splitDot n = some (ns, nm) ∧ childAt fs ns nm = none) →
      ∃ r, removeFold rp names fs = Except.ok r := by
  intro names
  induction names with
  | nil => intro fs _ _; exact ⟨_, rfl⟩
  | cons n0 rest ih =>
    intro fs hwf habs
    obtain ⟨ns, nm, hs, ha⟩ := habs n0 (List.mem_cons_self _ _)
    obtain ⟨fsa, evsa, h1⟩ := removeOne_ok_of_absent rp fs n0 ns nm hs ha
    obtain ⟨sub1, wf1⟩ := removeOne_sub_wf rp fs n0 fsa ns evsa hwf h1
    have habs2 : ∀ n ∈ rest, ∃ ns2 nm2, splitDot n = some (ns2, nm2) ∧
        childAt fsa ns2 nm2 = none := by
      intro n hn
      obtain ⟨ns2, nm2, hs2, ha2⟩ := habs n (List.mem_cons_of_mem _ hn)
      refine ⟨ns2, nm2, hs2, ?_⟩
      rcases hfin : childAt fsa ns2 nm2 with _ | k
      · rfl
      · have := sub1 ns2 nm2 k hfin
        rw [ha2] at this
        simp at this
    obtain ⟨⟨fsb, rootsb, evsb⟩, h2⟩ := ih fsa wf1 habs2
    refine ⟨(fsb, ns :: rootsb, evsa ++ evsb), ?_⟩
    simp only [removeFold, h1, h2]

/-- C8 (confirmed): on a well-formed tree, a successful `_remove_collections`
run leaves every processed collection path absent, so running it again on
the resulting tree raises no error. -/
theorem c8_remove_collections_idempotent (rp : String) (names : List String) (fs fs1 : Fs)
    (evs : List LogEvent) (hwf : fs.wf)
    (h1 : removeCollections rp names fs = Except.ok (fs1, evs)) :
    ∃ fs2 evs2, removeCollections rp names fs1 = Except.ok (fs2, evs2) := by
  unfold removeCollections at h1
  rcases hf : removeFold rp names fs with e | ⟨fsa, roots, evsa⟩ <;> simp only [hf] at h1
  · exact absurd h1 (by simp)
  · simp only [Except.ok.injEq, Prod.mk.injEq] at h1
    obtain ⟨hfs1, _⟩ := h1
    obtain ⟨subf, wff⟩ := removeFold_sub_wf rp names fs fsa roots evsa hwf hf
    have habsa := removeFold_absents rp names fs fsa roots evsa hwf hf
    obtain ⟨subns, wfns⟩ := rmdirNsAll_sub_wf rp roots fsa wff
    obtain ⟨subrt, wfrt⟩ := rmdirRoot_sub_wf rp (rmdirNsAll rp roots fsa).1 wfns
    have hwf1 : fs1.wf := by rw [← hfs1]; exact wfrt
    have habs1 : ∀ n ∈ names, ∃ ns nm, splitDot n = some (ns, nm) ∧
        childAt fs1 ns nm = none := by
      intro n hn
      obtain ⟨ns, nm, hs, ha⟩ := habsa n hn
      refine ⟨ns, nm, hs, ?_⟩
      rcases hfin : childAt fs1 ns nm with _ | k
      · rfl
      · rw [← hfs1] at hfin
        have h3 := subns ns nm k (subrt ns nm k hfin)
        rw [ha] at h3
        simp at h3
    obtain ⟨⟨fsb, rootsb, evsb⟩, h2⟩ := removeFold_ok_of_absents rp names fs1 hwf1 habs1
    refine ⟨(rmdirRoot rp (rmdirNsAll rp rootsb fsb).1).1,
      evsb ++ (rmdirNsAll rp rootsb fsb).2 ++
        (rmdirRoot rp (rmdirNsAll rp rootsb fsb).1).2, ?_⟩
    unfold removeCollections
    simp only [h2]

/-- C6 (corrected): the install-metadata cleanup scans the immediate
children of the *collection root* — not, as claimed, of the namespace
directory — and, whenever the namespace root exists, removes every root
child directory whose name starts with the collection name and whose
suffix is `.info`: after the per-name step no matching entry remains among
the root entries. -/
theorem c6_info_scan_at_collection_root (rp : String) (fs : Fs) (cname ns nm : String)
    (fs2 : Fs) (nsr : String) (evs : List LogEvent)
    (hsp : splitDot cname = some (ns, nm))
    (hns : nsExists fs ns = true)
    (hok : removeOne rp fs cname = Except.ok (fs2, nsr, evs)) :
    ∀ e ∈ fs2.rootEntries, infoMatch cname e = false := by
  unfold removeOne at hok
  simp only [hsp] at hok
  rcases hc : childAt fs ns nm with _ | (_ | _ | _) <;> simp only [hc] at hok
  · simp only [Except.ok.injEq, Prod.mk.injEq] at hok
    obtain ⟨h1, _, _⟩ := hok
    subst h1
    unfold scanStep
    rw [hns]
    simp only [if_true]
    exact removeInfoDirs_noMatch rp fs cname
  · simp only [Except.ok.injEq, Prod.mk.injEq] at hok
    obtain ⟨h1, _, _⟩ := hok
    subst h1
    unfold scanStep
    rw [nsExists_removeChild, hns]
    simp only [if_true]
    exact removeInfoDirs_noMatch rp (removeChild fs ns nm) cname
  · simp only [Except.ok.injEq, Prod.mk.injEq] at hok
    obtain ⟨h1, _, _⟩ := hok
    subst h1
    unfold scanStep
    rw [nsExists_removeChild, hns]
    simp only [if_true]
    exact removeInfoDirs_noMatch rp (removeChild fs ns nm) cname
  · exact absurd hok (by simp)

/-- C6 witness: on `exFsC6b` the scan under an existing namespace root
leaves no matching entry at the collection root. -/
theorem c6_info_scan_witness :
    infoMatch "ns.nm" ⟨"ns", FsRootNode.dir []⟩ = false :=
  c6_info_scan_at_collection_root "/sp/ansible_collections" exFsC6b "ns.nm" "ns" "nm"
    ⟨some [⟨"ns", FsRootNode.dir []⟩]⟩ "ns"
    [LogEvent.debug "Checking ns.nm at /sp/ansible_collections/ns/nm",
     LogEvent.debug "Exists: /sp/ansible_collections/ns/nm",
     LogEvent.info "Removed ns.nm: /sp/ansible_collections/ns/nm",
     LogEvent.info "Removed ns.nm*.info: /sp/ansible_collections/ns.nm-1.0.0.info"]
    (by decide) (by decide) (by decide) ⟨"ns", FsRootNode.dir []⟩ (by decide)

/-- C6 counterexample to the claim as stated: a metadata directory sitting
inside the namespace directory (rather than at the collection root) is not
removed — the scan walks `collection_root.iterdir()`, not the namespace
directory's children. -/
theorem c6_namespace_scan_counterexample :
    (removeCollections "/sp/ansible_collections" ["ns.nm"] exFsC6).map
      (fun r => childAt r.1 "ns" "ns.nm-1.0.0.info") =
      Except.ok (some FsCKind.dir) := by
  decide

/-- C8 witness: removing `ns.nm` from `exFs0` empties the tree, and the
second run on the emptied tree completes without error. -/
theorem c8_remove_collections_witness :
    (removeCollections "/sp/ansible_collections" ["ns.nm"] (Fs.mk none)).isOk = true := by
  obtain ⟨fs2, evs2, h⟩ := c8_remove_collections_idempotent "/sp/ansible_collections"
    ["ns.nm"] exFs0 (Fs.mk none)
    [LogEvent.debug "Checking ns.nm at /sp/ansible_collections/ns/nm",
     LogEvent.debug "Exists: /sp/ansible_collections/ns/nm",
     LogEvent.info "Removed ns.nm: /sp/ansible_collections/ns/nm",
     LogEvent.info "Removed collection namespace root: /sp/ansible_collections/ns",
     LogEvent.info "Removed collection root: /sp/ansible_collections"]
    (by decide) (by decide)
  rw [h]
  rfl
